import Mathlib

/-!
Verification of the `max_diamonds` search engine (`src/solve.py`).

The Python module computes the maximum quantity of a terminal resource
("diamonds") obtainable within a fixed number of turns, via a recursive
depth-first search over simulation states with memoization (a `Pack`-keyed
cache), branch-and-bound futility pruning against a global best-observed
bound, and a dominated-move restriction mask.

This file is a shallow embedding of that module: Python integers become
`Int`, the remaining-turn counter becomes `Nat` (the search never steps a
state whose counter is `0`), the float upper bound becomes an exact `ℚ`
value, and the module-level singletons (`cache`, `stats`, `best`) become an
explicit `Globals` record threaded through `solve`.
-/

/-- The four robot / resource kinds, in the fixed order used throughout
`solve.py`: ore, clay, obsidian, diamond (the terminal kind). -/
inductive Kind : Type where
  | ore : Kind
  | clay : Kind
  | obsidian : Kind
  | diamond : Kind
deriving DecidableEq, Repr, Fintype

/-- A robot cost: the 4-tuple `(ore, clay, obsidian, diamond)` destructured by
`Pack.build_*` and `Pack.can_build` in `solve.py`. -/
structure Cost : Type where
  ore : Int
  clay : Int
  obsidian : Int
  diamond : Int
deriving DecidableEq, Repr

/-- Component of a cost tuple for a given resource kind (Python indexes the
tuple positionally; `Kind` is the index). -/
def Cost.get (c : Cost) : Kind → Int
  | Kind.ore => c.ore
  | Kind.clay => c.clay
  | Kind.obsidian => c.obsidian
  | Kind.diamond => c.diamond

/-- The `Blueprint` from `solve.py`: one cost tuple per robot kind. -/
structure Blueprint : Type where
  ore : Cost
  clay : Cost
  obsidian : Cost
  diamond : Cost
deriving DecidableEq, Repr

/-- Cost tuple of a robot kind (Python `getattr(bp, bot_kind)`). -/
def Blueprint.costOf (bp : Blueprint) : Kind → Cost
  | Kind.ore => bp.ore
  | Kind.clay => bp.clay
  | Kind.obsidian => bp.obsidian
  | Kind.diamond => bp.diamond

/-- The `Blueprint._max_resource(ind)`: the maximum over the four robot kinds of
the cost component for resource `ind`. -/
def Blueprint.max_resource (bp : Blueprint) (k : Kind) : Int :=
  max (max (bp.ore.get k) (bp.clay.get k)) (max (bp.obsidian.get k) (bp.diamond.get k))

/-- The `Blueprint.max_ore`. -/
def Blueprint.max_ore (bp : Blueprint) : Int := bp.max_resource Kind.ore

/-- The `Blueprint.max_clay`. -/
def Blueprint.max_clay (bp : Blueprint) : Int := bp.max_resource Kind.clay

/-- The `Blueprint.max_obsidian`. -/
def Blueprint.max_obsidian (bp : Blueprint) : Int := bp.max_resource Kind.obsidian

/-- The `Pack` from `solve.py`: resource stock and robot counts of each kind. -/
structure Pack : Type where
  ore : Int := 0
  clay : Int := 0
  obsidian : Int := 0
  diamonds : Int := 0
  ore_bots : Int := 0
  clay_bots : Int := 0
  obsidian_bots : Int := 0
  diamond_bots : Int := 0
deriving DecidableEq, Repr

/-- The `Pack.produce`: every owned robot adds one unit of its resource. -/
def Pack.produce (p : Pack) : Pack :=
  { p with
    ore := p.ore + p.ore_bots
    clay := p.clay + p.clay_bots
    obsidian := p.obsidian + p.obsidian_bots
    diamonds := p.diamonds + p.diamond_bots }

/-- The `Pack.build_ore`: pay `bp.ore` and add one ore robot. -/
def Pack.build_ore (p : Pack) (bp : Blueprint) : Pack :=
  { p with
    ore := p.ore - bp.ore.ore
    clay := p.clay - bp.ore.clay
    obsidian := p.obsidian - bp.ore.obsidian
    diamonds := p.diamonds - bp.ore.diamond
    ore_bots := p.ore_bots + 1 }

/-- The `Pack.build_clay`: pay `bp.clay` and add one clay robot. -/
def Pack.build_clay (p : Pack) (bp : Blueprint) : Pack :=
  { p with
    ore := p.ore - bp.clay.ore
    clay := p.clay - bp.clay.clay
    obsidian := p.obsidian - bp.clay.obsidian
    diamonds := p.diamonds - bp.clay.diamond
    clay_bots := p.clay_bots + 1 }

/-- The `Pack.build_obsidian`: pay `bp.obsidian` and add one obsidian robot. -/
def Pack.build_obsidian (p : Pack) (bp : Blueprint) : Pack :=
  { p with
    ore := p.ore - bp.obsidian.ore
    clay := p.clay - bp.obsidian.clay
    obsidian := p.obsidian - bp.obsidian.obsidian
    diamonds := p.diamonds - bp.obsidian.diamond
    obsidian_bots := p.obsidian_bots + 1 }

/-- The `Pack.build_diamond`: pay `bp.diamond` and add one diamond robot. -/
def Pack.build_diamond (p : Pack) (bp : Blueprint) : Pack :=
  { p with
    ore := p.ore - bp.diamond.ore
    clay := p.clay - bp.diamond.clay
    obsidian := p.obsidian - bp.diamond.obsidian
    diamonds := p.diamonds - bp.diamond.diamond
    diamond_bots := p.diamond_bots + 1 }

/-- The `Pack.can_build(bot_kind, bp)`: the stock covers every component of the
chosen robot's cost tuple. -/
def Pack.can_build (p : Pack) (k : Kind) (bp : Blueprint) : Bool :=
  decide ((bp.costOf k).ore ≤ p.ore) && decide ((bp.costOf k).clay ≤ p.clay) &&
    decide ((bp.costOf k).obsidian ≤ p.obsidian) && decide ((bp.costOf k).diamond ≤ p.diamonds)

/-- Resource stock of a pack, indexed by kind. -/
def Pack.resource (p : Pack) : Kind → Int
  | Kind.ore => p.ore
  | Kind.clay => p.clay
  | Kind.obsidian => p.obsidian
  | Kind.diamond => p.diamonds

/-- Robot count of a pack, indexed by kind. -/
def Pack.robot (p : Pack) : Kind → Int
  | Kind.ore => p.ore_bots
  | Kind.clay => p.clay_bots
  | Kind.obsidian => p.obsidian_bots
  | Kind.diamond => p.diamond_bots

/-- All eight fields of the pack are non-negative. -/
def Pack.Nonneg (p : Pack) : Prop :=
  0 ≤ p.ore ∧ 0 ≤ p.clay ∧ 0 ≤ p.obsidian ∧ 0 ≤ p.diamonds ∧
    0 ≤ p.ore_bots ∧ 0 ≤ p.clay_bots ∧ 0 ≤ p.obsidian_bots ∧ 0 ≤ p.diamond_bots

instance (p : Pack) : Decidable p.Nonneg := by
  unfold Pack.Nonneg
  infer_instance

/-- The `State` from `solve.py`: a pack plus the remaining-turn counter.  The
counter is a `Nat`; the engine only ever steps states whose counter is
positive, so Python's `remaining_turns - 1` agrees with truncated
subtraction on every state the engine steps. -/
structure State : Type where
  pack : Pack
  remaining_turns : Nat
deriving DecidableEq, Repr

/-- The `State._step`: produce, then decrement the remaining-turn counter. -/
def State.step (s : State) : State :=
  { s with pack := s.pack.produce, remaining_turns := s.remaining_turns - 1 }

/-- The `State.wait`: a step with no build. -/
def State.wait (s : State) : State := s.step

/-- The `State.build_ore`: apply the build, then `_step` (produce + decrement). -/
def State.build_ore (s : State) (bp : Blueprint) : State :=
  ({ s with pack := s.pack.build_ore bp }).step

/-- The `State.build_clay`. -/
def State.build_clay (s : State) (bp : Blueprint) : State :=
  ({ s with pack := s.pack.build_clay bp }).step

/-- The `State.build_obsidian`. -/
def State.build_obsidian (s : State) (bp : Blueprint) : State :=
  ({ s with pack := s.pack.build_obsidian bp }).step

/-- The `State.build_diamond`. -/
def State.build_diamond (s : State) (bp : Blueprint) : State :=
  ({ s with pack := s.pack.build_diamond bp }).step

/-- The `State.can_build_ore`. -/
def State.can_build_ore (s : State) (bp : Blueprint) : Bool := s.pack.can_build Kind.ore bp

/-- The `State.can_build_clay`. -/
def State.can_build_clay (s : State) (bp : Blueprint) : Bool := s.pack.can_build Kind.clay bp

/-- The `State.can_build_obsidian`. -/
def State.can_build_obsidian (s : State) (bp : Blueprint) : Bool :=
  s.pack.can_build Kind.obsidian bp

/-- The `State.can_build_diamond`. -/
def State.can_build_diamond (s : State) (bp : Blueprint) : Bool :=
  s.pack.can_build Kind.diamond bp

/-- The build transition, indexed by kind (dispatch to the four builders). -/
def State.build (s : State) (bp : Blueprint) : Kind → State
  | Kind.ore => s.build_ore bp
  | Kind.clay => s.build_clay bp
  | Kind.obsidian => s.build_obsidian bp
  | Kind.diamond => s.build_diamond bp

/-- The `State.upper_bound_diamonds`, as the exact rational value of the Python
float expression `diamonds + remaining_turns * (diamond_bots + 0.5 * (remaining_turns + 1))`. -/
def State.upper_bound_diamonds (s : State) : ℚ :=
  (s.pack.diamonds : ℚ) +
    (s.remaining_turns : ℚ) * ((s.pack.diamond_bots : ℚ) + (1 / 2) * ((s.remaining_turns : ℚ) + 1))

/-- The `AllowedOptions`: the one-turn legal-move restriction mask. -/
structure AllowedOptions : Type where
  ore : Bool
  clay : Bool
  obsidian : Bool
  diamond : Bool
deriving DecidableEq, Repr

/-- Mask entry for a kind. -/
def AllowedOptions.get (a : AllowedOptions) : Kind → Bool
  | Kind.ore => a.ore
  | Kind.clay => a.clay
  | Kind.obsidian => a.obsidian
  | Kind.diamond => a.diamond

/-- The default all-true mask `AllowedOptions(True, True, True, True)`. -/
def AllowedOptions.allTrue : AllowedOptions :=
  { ore := true, clay := true, obsidian := true, diamond := true }

/-- The `Stats`: the instrumentation counters. -/
structure Stats : Type where
  states_visited : Nat := 0
  cache_hits : Nat := 0
  cache_attempts : Nat := 0
  futile_hits : Nat := 0
deriving DecidableEq, Repr

/-- The `Stats.visit_node`. -/
def Stats.visit_node (st : Stats) : Stats :=
  { st with states_visited := st.states_visited + 1 }

/-- The `Stats.hit_cache`: one attempt, one hit. -/
def Stats.hit_cache (st : Stats) : Stats :=
  { st with cache_attempts := st.cache_attempts + 1, cache_hits := st.cache_hits + 1 }

/-- The `Stats.missed_cache`: one attempt. -/
def Stats.missed_cache (st : Stats) : Stats :=
  { st with cache_attempts := st.cache_attempts + 1 }

/-- The `Stats.detect_futile`. -/
def Stats.detect_futile (st : Stats) : Stats :=
  { st with futile_hits := st.futile_hits + 1 }

/-- The `Stats.reset`: all counters back to zero. -/
def Stats.statsReset (_ : Stats) : Stats :=
  { states_visited := 0, cache_hits := 0, cache_attempts := 0, futile_hits := 0 }

/-- The `BestObserved`: the global best-observed bound (constructed with `-1`). -/
structure BestObserved : Type where
  value : Int := -1
deriving DecidableEq, Repr

/-- The `BestObserved.update(v)`: monotone max-update. -/
def BestObserved.update (b : BestObserved) (v : Int) : BestObserved :=
  { value := max b.value v }

/-- The `BestObserved.reset`: back to `0`. -/
def BestObserved.bestReset (_ : BestObserved) : BestObserved :=
  { value := 0 }

/-- The module-level singletons of `solve.py`, threaded explicitly: the memo
table `cache` (a `Pack`-keyed map), `stats`, the `best` bound object, and the
module global `BEST_OBSERVED` that `reset()` assigns (absent, i.e. `none`,
until `reset()` first runs; no other code reads or writes it). -/
structure Globals : Type where
  cache : Pack → Option (Int × Nat)
  stats : Stats
  best : BestObserved
  BEST_OBSERVED : Option Int := none

/-- The mask passed to the wait branch of `solve`:
`AllowedOptions(ore=not can_build_ore, clay=not can_build_clay, obsidian=not can_build_obsidian, diamond=not can_build_diamond)`
built from the walrus-captured affordability flags of the current turn. -/
def waitMask (s : State) (bp : Blueprint) : AllowedOptions :=
  { ore := !s.can_build_ore bp
    clay := !s.can_build_clay bp
    obsidian := !s.can_build_obsidian bp
    diamond := !s.can_build_diamond bp }

/-- The recursion of `solve(state, bp, _allowed_options)` from `solve.py`,
realized structurally on a fuel argument that always equals the state's
`remaining_turns` (every recursive call decrements both together, and
`solve` below instantiates the fuel with the counter).  When the fuel is
`0` the counter is `0` and the call is the terminal case: bump the visit
counter and return the current diamond stock.  Otherwise the body follows
the Python statement by statement: visit counter, terminal check, memo
lookup (bail with `-1` on a strictly larger recorded horizon, return the
stored value on an equal horizon), futility check against `best`, the four
build branches in source order (diamond, ore, clay, obsidian; children get
the default all-true mask), the wait branch with the restriction mask, and
the final combine-and-memoize. -/
def solveGo : Nat → State → Blueprint → AllowedOptions → Globals → Int × Globals
  | 0, s, _, _, g => (s.pack.diamonds, { g with stats := g.stats.visit_node })
  | fuel + 1, s, bp, ao, g =>
    let g0 : Globals := { g with stats := g.stats.visit_node }
    if s.remaining_turns = 0 then
      (s.pack.diamonds, g0)
    else
      let hit : Option (Int × Globals) :=
        match g0.cache s.pack with
        | some (best_result, rec_turns) =>
          if s.remaining_turns < rec_turns then
            some (-1, { g0 with stats := g0.stats.hit_cache })
          else if s.remaining_turns = rec_turns then
            some (best_result, { g0 with stats := g0.stats.hit_cache })
          else none
        | none => none
      match hit with
      | some out => out
      | none =>
        let g1 : Globals := { g0 with stats := g0.stats.missed_cache }
        if s.upper_bound_diamonds < (g1.best.value : ℚ) then
          (-1, { g1 with stats := g1.stats.detect_futile })
        else
          let can_build_diamond := s.can_build_diamond bp
          let dstep : Int × Globals :=
            if can_build_diamond && ao.diamond then
              let r := solveGo fuel (s.build_diamond bp) bp AllowedOptions.allTrue g1
              (r.1, { r.2 with best := r.2.best.update r.1 })
            else (0, g1)
          let can_build_ore := s.can_build_ore bp
          let ostep : Int × Globals :=
            if can_build_ore && ao.ore && decide (s.pack.ore_bots < bp.max_ore) then
              let r := solveGo fuel (s.build_ore bp) bp AllowedOptions.allTrue dstep.2
              (r.1, { r.2 with best := r.2.best.update r.1 })
            else (0, dstep.2)
          let can_build_clay := s.can_build_clay bp
          let cstep : Int × Globals :=
            if can_build_clay && ao.clay && decide (s.pack.clay_bots < bp.max_clay) then
              let r := solveGo fuel (s.build_clay bp) bp AllowedOptions.allTrue ostep.2
              (r.1, { r.2 with best := r.2.best.update r.1 })
            else (0, ostep.2)
          let can_build_obsidian := s.can_build_obsidian bp
          let bstep : Int × Globals :=
            if can_build_obsidian && ao.obsidian && decide (s.pack.obsidian_bots < bp.max_obsidian) then
              let r := solveGo fuel (s.build_obsidian bp) bp AllowedOptions.allTrue cstep.2
              (r.1, { r.2 with best := r.2.best.update r.1 })
            else (0, cstep.2)
          let wstep : Int × Globals :=
            let r := solveGo fuel s.wait bp (waitMask s bp) bstep.2
            (r.1, { r.2 with best := r.2.best.update r.1 })
          let best_res : Int :=
            max (max (max (max dstep.1 bstep.1) cstep.1) ostep.1) wstep.1
          (best_res,
            { wstep.2 with
              cache := fun p =>
                if p = s.pack then some (best_res, s.remaining_turns) else wstep.2.cache p })

/-- The `solve(state, bp, _allowed_options)` from `solve.py`, with the module
singletons passed in and returned as a `Globals` record. -/
def solve (s : State) (bp : Blueprint) (ao : AllowedOptions) (g : Globals) : Int × Globals :=
  solveGo s.remaining_turns s bp ao g

/-- The `reset()` from `solve.py`: clears the memo table, zeroes the statistics
counters, and assigns `-1` to the module global `BEST_OBSERVED` (a name that
nothing else reads); it does not touch the `best` singleton that the
futility check consults. -/
def reset (g : Globals) : Globals :=
  { g with
    cache := fun _ => none
    stats := g.stats.statsReset
    BEST_OBSERVED := some (-1) }

/-- The tail of `solve` that runs when the memo lookup neither bails nor
returns a stored value (the "full expansion": `stats.missed_cache()`, the
futility check, the four build branches, the wait branch, and the final
combine-and-memoize).  `g` plays the role of the globals after the visit
counter was bumped.  The body is letter-for-letter the fall-through branch
of `solve`. -/
def expand (s : State) (bp : Blueprint) (ao : AllowedOptions) (g : Globals) : Int × Globals :=
  let g1 : Globals := { g with stats := g.stats.missed_cache }
  if s.upper_bound_diamonds < (g1.best.value : ℚ) then
    (-1, { g1 with stats := g1.stats.detect_futile })
  else
    let can_build_diamond := s.can_build_diamond bp
    let dstep : Int × Globals :=
      if can_build_diamond && ao.diamond then
        let r := solve (s.build_diamond bp) bp AllowedOptions.allTrue g1
        (r.1, { r.2 with best := r.2.best.update r.1 })
      else (0, g1)
    let can_build_ore := s.can_build_ore bp
    let ostep : Int × Globals :=
      if can_build_ore && ao.ore && decide (s.pack.ore_bots < bp.max_ore) then
        let r := solve (s.build_ore bp) bp AllowedOptions.allTrue dstep.2
        (r.1, { r.2 with best := r.2.best.update r.1 })
      else (0, dstep.2)
    let can_build_clay := s.can_build_clay bp
    let cstep : Int × Globals :=
      if can_build_clay && ao.clay && decide (s.pack.clay_bots < bp.max_clay) then
        let r := solve (s.build_clay bp) bp AllowedOptions.allTrue ostep.2
        (r.1, { r.2 with best := r.2.best.update r.1 })
      else (0, ostep.2)
    let can_build_obsidian := s.can_build_obsidian bp
    let bstep : Int × Globals :=
      if can_build_obsidian && ao.obsidian && decide (s.pack.obsidian_bots < bp.max_obsidian) then
        let r := solve (s.build_obsidian bp) bp AllowedOptions.allTrue cstep.2
        (r.1, { r.2 with best := r.2.best.update r.1 })
      else (0, cstep.2)
    let wstep : Int × Globals :=
      let r := solve s.wait bp (waitMask s bp) bstep.2
      (r.1, { r.2 with best := r.2.best.update r.1 })
    let best_res : Int :=
      max (max (max (max dstep.1 bstep.1) cstep.1) ostep.1) wstep.1
    (best_res,
      { wstep.2 with
        cache := fun p =>
          if p = s.pack then some (best_res, s.remaining_turns) else wstep.2.cache p })

/-- Reference value, realized like `solveGo` on a fuel argument equal to the
remaining-turn counter: the true optimal terminal diamond yield from a
state, by exhaustive search over the legal transitions (wait, plus any
affordable build) with no pruning, no memoization, no restriction mask and
no robot-count cap.  An unaffordable leg defaults to the wait leg's value,
which leaves the maximum unchanged. -/
def bruteGo : Nat → State → Blueprint → Int
  | 0, s, _ => s.pack.diamonds
  | fuel + 1, s, bp =>
    if s.remaining_turns = 0 then s.pack.diamonds
    else
      let w := bruteGo fuel s.wait bp
      let d := if s.pack.can_build Kind.diamond bp then bruteGo fuel (s.build_diamond bp) bp else w
      let o := if s.pack.can_build Kind.ore bp then bruteGo fuel (s.build_ore bp) bp else w
      let c := if s.pack.can_build Kind.clay bp then bruteGo fuel (s.build_clay bp) bp else w
      let b := if s.pack.can_build Kind.obsidian bp then bruteGo fuel (s.build_obsidian bp) bp else w
      max (max (max (max w d) o) c) b

/-- The true optimal terminal diamond yield from a state: exhaustive search
with pruning and memoization disabled. -/
def bruteForce (s : State) (bp : Blueprint) : Int :=
  bruteGo s.remaining_turns s bp

/-- The blueprint is well-formed in the sense of the spec: every cost
component is a non-negative integer and no robot costs any of the terminal
resource. -/
def Blueprint.WellFormed (bp : Blueprint) : Prop :=
  (∀ k j, 0 ≤ (bp.costOf k).get j) ∧ (∀ k, (bp.costOf k).get Kind.diamond = 0)

theorem wait_remaining (s : State) : s.wait.remaining_turns = s.remaining_turns - 1 := rfl

theorem build_ore_remaining (s : State) (bp : Blueprint) :
    (s.build_ore bp).remaining_turns = s.remaining_turns - 1 := rfl

theorem build_clay_remaining (s : State) (bp : Blueprint) :
    (s.build_clay bp).remaining_turns = s.remaining_turns - 1 := rfl

theorem build_obsidian_remaining (s : State) (bp : Blueprint) :
    (s.build_obsidian bp).remaining_turns = s.remaining_turns - 1 := rfl

theorem build_diamond_remaining (s : State) (bp : Blueprint) :
    (s.build_diamond bp).remaining_turns = s.remaining_turns - 1 := rfl

theorem build_remaining (s : State) (bp : Blueprint) (k : Kind) :
    (s.build bp k).remaining_turns = s.remaining_turns - 1 := by
  cases k <;> rfl

set_option maxHeartbeats 2000000

theorem globals_stats_cache (g : Globals) (st : Stats) :
    ({ g with stats := st } : Globals).cache = g.cache := rfl

theorem globals_stats_best (g : Globals) (st : Stats) :
    ({ g with stats := st } : Globals).best = g.best := rfl

/-- Running `solve` on a state with no remaining turns returns the current diamond
stock, touching only the visit counter. -/
theorem solve_zero (s : State) (bp : Blueprint) (ao : AllowedOptions) (g : Globals)
    (h : s.remaining_turns = 0) :
    solve s bp ao g = (s.pack.diamonds, { g with stats := g.stats.visit_node }) := by
  unfold solve
  rw [h]
  rfl

/-- Running `solve` on a cache hit whose recorded horizon is strictly larger than the
current one returns the `-1` sentinel, touching only the statistics. -/
theorem solve_stale (s : State) (bp : Blueprint) (ao : AllowedOptions) (g : Globals)
    (v : Int) (r : Nat) (h0 : s.remaining_turns ≠ 0) (hc : g.cache s.pack = some (v, r))
    (hlt : s.remaining_turns < r) :
    solve s bp ao g = (-1, { g with stats := g.stats.visit_node.hit_cache }) := by
  unfold solve
  cases hn : s.remaining_turns with
  | zero => exact absurd hn h0
  | succ n =>
    simp only [solveGo, globals_stats_cache, hc, hn]
    rw [hn] at hlt
    simp [hlt]

/-- Running `solve` on an exact cache hit returns the stored value, touching only the
statistics. -/
theorem solve_exact (s : State) (bp : Blueprint) (ao : AllowedOptions) (g : Globals)
    (v : Int) (r : Nat) (h0 : s.remaining_turns ≠ 0) (hc : g.cache s.pack = some (v, r))
    (heq : s.remaining_turns = r) :
    solve s bp ao g = (v, { g with stats := g.stats.visit_node.hit_cache }) := by
  unfold solve
  cases hn : s.remaining_turns with
  | zero => exact absurd hn h0
  | succ n =>
    rw [hn] at heq
    subst heq
    simp only [solveGo, globals_stats_cache, hc, hn]
    simp

/-- Here `solve` falls through to the full expansion when the cached horizon is
strictly smaller than the current one. -/
theorem solve_cache_lt (s : State) (bp : Blueprint) (ao : AllowedOptions) (g : Globals)
    (v : Int) (r : Nat) (h0 : s.remaining_turns ≠ 0) (hc : g.cache s.pack = some (v, r))
    (hgt : r < s.remaining_turns) :
    solve s bp ao g = expand s bp ao { g with stats := g.stats.visit_node } := by
  unfold solve expand
  cases hn : s.remaining_turns with
  | zero => exact absurd hn h0
  | succ n =>
    rw [hn] at hgt
    have h1 : ¬ (n + 1 < r) := by omega
    have h2 : ¬ (n + 1 = r) := by omega
    simp only [solveGo, solve, globals_stats_cache, hc, hn, h1, h2,
      build_diamond_remaining, build_ore_remaining, build_clay_remaining,
      build_obsidian_remaining, wait_remaining, Nat.add_sub_cancel]
    simp [hn]

/-- Here `solve` falls through to the full expansion when the pack is not in the
memo table. -/
theorem solve_cache_none (s : State) (bp : Blueprint) (ao : AllowedOptions) (g : Globals)
    (h0 : s.remaining_turns ≠ 0) (hc : g.cache s.pack = none) :
    solve s bp ao g = expand s bp ao { g with stats := g.stats.visit_node } := by
  unfold solve expand
  cases hn : s.remaining_turns with
  | zero => exact absurd hn h0
  | succ n =>
    simp only [solveGo, solve, globals_stats_cache, hc, hn,
      build_diamond_remaining, build_ore_remaining, build_clay_remaining,
      build_obsidian_remaining, wait_remaining, Nat.add_sub_cancel]
    simp [hn]

/-- The default blueprint of `solve.py` (the module's `Blueprint()`). -/
def bpDefault : Blueprint :=
  { ore := ⟨4, 0, 0, 0⟩, clay := ⟨2, 0, 0, 0⟩, obsidian := ⟨2, 14, 0, 0⟩, diamond := ⟨2, 0, 7, 0⟩ }

/-- A sample pack that can afford an ore robot under `bpDefault`. -/
def packC1 : Pack := { ore := 4, ore_bots := 1 }

/-- A sample state with two turns left. -/
def sC1 : State := { pack := packC1, remaining_turns := 2 }

/-- The all-false restriction mask. -/
def aoNone : AllowedOptions := { ore := false, clay := false, obsidian := false, diamond := false }

/-- Fresh globals: empty memo table, zero statistics, best bound `0` (the
value `BestObserved.reset` establishes). -/
def freshGlobals : Globals :=
  { cache := fun _ => none, stats := {}, best := { value := 0 } }

/-- Sample globals mid-search (best bound `5`, one cache entry, nonzero
statistics). -/
def gC3 : Globals :=
  { cache := fun p => if p = packC1 then some (3, 1) else none
    stats := { states_visited := 5, cache_hits := 1, cache_attempts := 2, futile_hits := 1 }
    best := { value := 5 } }

/-- C1 (counterexample): at a state satisfying the claim's hypotheses
(`remaining_turns ≥ 1`, ore robot affordable under the default blueprint),
the resulting ore stock is not `resources[ore] - costs[ore][ore] + robots[ore]`:
the newly built ore robot also produces during the build turn. -/
theorem c1_counterexample :
    1 ≤ sC1.remaining_turns ∧ sC1.pack.can_build Kind.ore bpDefault = true ∧
    ¬ ((sC1.build bpDefault Kind.ore).pack.resource Kind.ore =
        sC1.pack.resource Kind.ore - (bpDefault.costOf Kind.ore).get Kind.ore +
          sC1.pack.robot Kind.ore) := by
  decide

/-- C1 (amended): the build is applied before production, and production then
counts the post-build robots, so for every resource kind `j` the resulting
stock is `resources[j] - costs[k][j] + robots[j]` plus one extra unit when
`j` is the kind just built: the new robot does produce in its build turn. -/
theorem c1_build_then_produce :
    ∀ (s : State) (bp : Blueprint) (k j : Kind),
      1 ≤ s.remaining_turns → s.pack.can_build k bp = true →
      (s.build bp k).pack.resource j =
        s.pack.resource j - (bp.costOf k).get j + s.pack.robot j +
          (if j = k then 1 else 0) := by
  intro s bp k j h1 h2
  cases k <;> cases j <;>
    simp [State.build, State.build_ore, State.build_clay, State.build_obsidian,
      State.build_diamond, State.step, Pack.build_ore, Pack.build_clay,
      Pack.build_obsidian, Pack.build_diamond, Pack.produce, Pack.resource,
      Pack.robot, Blueprint.costOf, Cost.get] <;>
    ring

/-- C1 (witness): the amended statement evaluated at the counterexample's
concrete input. -/
theorem c1_witness :
    1 ≤ sC1.remaining_turns ∧ sC1.pack.can_build Kind.ore bpDefault = true ∧
    (sC1.build bpDefault Kind.ore).pack.resource Kind.ore =
      sC1.pack.resource Kind.ore - (bpDefault.costOf Kind.ore).get Kind.ore +
        sC1.pack.robot Kind.ore + (if Kind.ore = Kind.ore then 1 else 0) :=
  ⟨by decide, by decide,
    c1_build_then_produce sC1 bpDefault Kind.ore Kind.ore (by decide) (by decide)⟩

/-- C2 (counterexample): with the ore robot affordable but the incoming mask
forbidding ore, the mask actually passed to the wait branch differs from the
claimed `not (can_build
 and incoming_allowed)`: the implementation ignores
the incoming mask. -/
theorem c2_counterexample :
    ¬ ((waitMask sC1 bpDefault).get Kind.ore =
        !(sC1.pack.can_build Kind.ore bpDefault && aoNone.get Kind.ore)) := by
  decide

/-- C2 (amended): the mask passed to the wait branch forbids kind `k` exactly
when `k` is affordable this turn, regardless of the incoming allowed mask:
`next_allowed[k] = not can_build(state, k)`. -/
theorem c2_next_allowed :
    ∀ (s : State) (bp : Blueprint) (k : Kind),
      (waitMask s bp).get k = !(s.pack.can_build k bp) := by
  intro s bp k
  cases k <;> rfl

/-- C3: `reset()` clears the memo table and zeroes the statistics, but it
does not restore the best-observed bound consulted by the futility check:
it assigns `-1` to the otherwise-unused module global `BEST_OBSERVED`
while `best.value` keeps its old value (`5` here, not the reset value `0`
that `BestObserved.reset` would give). -/
theorem c3_reset_keeps_best :
    (reset gC3).best.value = 5 ∧ gC3.best.bestReset.value = 0 ∧
    (reset gC3).cache packC1 = none ∧
    (reset gC3).stats = { states_visited := 0, cache_hits := 0, cache_attempts := 0, futile_hits := 0 } ∧
    (reset gC3).BEST_OBSERVED = some (-1) := by
  decide

/-- C7: `solve` returns at once (only bumping the visit counter) when
`remaining_turns = 0`, and every transition passed to a recursive call —
the wait step and each build step — has a remaining-turn counter exactly
one less than its parent's, so the recursion is well-founded on the
strictly decreasing counter. -/
theorem c7_termination_structure :
    ∀ (s : State) (bp : Blueprint) (ao : AllowedOptions) (g : Globals),
      (s.remaining_turns = 0 →
        solve s bp ao g = (s.pack.diamonds, { g with stats := g.stats.visit_node })) ∧
      (1 ≤ s.remaining_turns →
        s.wait.remaining_turns + 1 = s.remaining_turns ∧
        ∀ k, (s.build bp k).remaining_turns + 1 = s.remaining_turns) := by
  intro s bp ao g
  refine ⟨solve_zero s bp ao g, fun h => ⟨?_, fun k => ?_⟩⟩
  · rw [wait_remaining]
    omega
  · rw [build_remaining]
    omega

/-- C7 (witness): the two legs at concrete inputs: a zero-turn state returns
its diamond stock, and a two-turn state's wait and diamond-build children
have exactly one turn left. -/
theorem c7_witness :
    solve { pack := packC1, remaining_turns := 0 } bpDefault AllowedOptions.allTrue gC3 =
      (packC1.diamonds, { gC3 with stats := gC3.stats.visit_node }) ∧
    sC1.wait.remaining_turns + 1 = sC1.remaining_turns ∧
    (sC1.build bpDefault Kind.diamond).remaining_turns + 1 = sC1.remaining_turns :=
  ⟨(c7_termination_structure { pack := packC1, remaining_turns := 0 } bpDefault
      AllowedOptions.allTrue gC3).1 rfl,
    ((c7_termination_structure sC1 bpDefault AllowedOptions.allTrue gC3).2 (by decide)).1,
    ((c7_termination_structure sC1 bpDefault AllowedOptions.allTrue gC3).2 (by decide)).2
      Kind.diamond⟩

/-- States reachable through the engine's transitions: reflexivity, the wait
step, and a build step taken only when `can_build` holds — exactly the
transitions `solve` recurses into (every build gate in `solve` has the
affordability flag as a conjunct). -/
inductive Reachable (bp : Blueprint) : State → State → Prop where
  | refl (s : State) : Reachable bp s s
  | wait {s t : State} : Reachable bp s t → Reachable bp s t.wait
  | build {s t : State} (k : Kind) : Reachable bp s t → t.pack.can_build k bp = true →
      Reachable bp s (t.build bp k)

theorem produce_nonneg {p : Pack} (h : p.Nonneg) : p.produce.Nonneg := by
  obtain ⟨h1, h2, h3, h4, h5, h6, h7, h8⟩ := h
  refine ⟨?_, ?_, ?_, ?_, ?_, ?_, ?_, ?_⟩ <;> simp [Pack.produce] <;> omega

theorem build_nonneg {p : Pack} {bp : Blueprint} {k : Kind} (h : p.Nonneg)
    (hc : p.can_build k bp = true) :
    (match k with
      | Kind.ore => p.build_ore bp
      | Kind.clay => p.build_clay bp
      | Kind.obsidian => p.build_obsidian bp
      | Kind.diamond => p.build_diamond bp).Nonneg := by
  obtain ⟨h1, h2, h3, h4, h5, h6, h7, h8⟩ := h
  cases k <;>
    (simp only [Pack.can_build, Blueprint.costOf, Bool.and_eq_true, decide_eq_true_eq] at hc
     simp only [Pack.build_ore, Pack.build_clay, Pack.build_obsidian, Pack.build_diamond,
       Pack.Nonneg]
     omega)

theorem build_pack_eq (s : State) (bp : Blueprint) (k : Kind) :
    (s.build bp k).pack =
      (match k with
        | Kind.ore => s.pack.build_ore bp
        | Kind.clay => s.pack.build_clay bp
        | Kind.obsidian => s.pack.build_obsidian bp
        | Kind.diamond => s.pack.build_diamond bp).produce := by
  cases k <;> rfl

/-- C8: with a well-formed blueprint (non-negative cost entries, zero
terminal-resource components) and a component-wise non-negative initial
pack, every pack reached through the engine's transitions — produce/wait
steps and builds taken only when `can_build` holds, which is how `solve`
recurses — has all eight fields non-negative. -/
theorem c8_nonneg_invariant :
    ∀ (bp : Blueprint) (s0 s : State),
      bp.WellFormed → s0.pack.Nonneg → Reachable bp s0 s → s.pack.Nonneg := by
  intro bp s0 s hwf h0 hr
  induction hr with
  | refl => exact h0
  | wait _ ih => exact produce_nonneg ih
  | build k _ hc ih =>
    rw [build_pack_eq]
    exact produce_nonneg (build_nonneg ih hc)

/-- C8 (witness): from a non-negative one-ore-robot pack under the (well
formed) default blueprint, the pack after one wait step is non-negative. -/
theorem c8_witness :
    ({ pack := { ore_bots := 1 }, remaining_turns := 5 } : State).wait.pack.Nonneg :=
  c8_nonneg_invariant bpDefault { pack := { ore_bots := 1 }, remaining_turns := 5 } _
    (by constructor <;> decide) (by decide)
    (Reachable.wait (Reachable.refl { pack := { ore_bots := 1 }, remaining_turns := 5 }))

/-- Spec-side derived cap: `max_useful[k]` is the maximum over all robot
kinds `j` of `costs[j][k]`. -/
def max_useful (bp : Blueprint) (k : Kind) : Int :=
  max (max ((bp.costOf Kind.ore).get k) ((bp.costOf Kind.clay).get k))
    (max ((bp.costOf Kind.obsidian).get k) ((bp.costOf Kind.diamond).get k))

/-- Spec-side build gate: affordability, the allowed mask, and — for the
three non-terminal kinds only — the robot-count cap `robots[k] < max_useful[k]`.
The terminal kind is exempt from the cap. -/
def buildGate (s : State) (bp : Blueprint) (ao : AllowedOptions) (k : Kind) : Bool :=
  s.pack.can_build k bp && ao.get k &&
    (decide (k = Kind.diamond) || decide (s.pack.robot k < max_useful bp k))

/-- Spec-side single build attempt: if the gate passes, recurse with the
allowed mask reset to all-true and fold the child's result into the
best-observed bound; otherwise contribute the accumulator value `0`. -/
def tryBuild (bp : Blueprint) (s : State) (ao : AllowedOptions) (k : Kind) (g : Globals) :
    Int × Globals :=
  if buildGate s bp ao k then
    let r := solve (s.build bp k) bp AllowedOptions.allTrue g
    (r.1, { r.2 with best := r.2.best.update r.1 })
  else (0, g)

/-- Spec-side sequential exploration of a list of kinds in priority order,
threading the globals left to right and collecting each kind's result. -/
def runBuilds (bp : Blueprint) (s : State) (ao : AllowedOptions) :
    List Kind → Globals → List Int × Globals
  | [], g => ([], g)
  | k :: ks, g =>
    let r := tryBuild bp s ao k g
    let rest := runBuilds bp s ao ks r.2
    (r.1 :: rest.1, rest.2)

/-- The spec's fixed priority order: the terminal kind first, then the
remaining three kinds in the source's fixed order. -/
def kindOrder : List Kind := [Kind.diamond, Kind.ore, Kind.clay, Kind.obsidian]

/-- Spec-side expansion, written from the spec's narrative: futility check,
then each robot kind in priority order through its three gates, then the
wait branch with the restriction mask, then the maximum of the explored
results and the wait result, memoized. -/
def expandSpec (s : State) (bp : Blueprint) (ao : AllowedOptions) (g : Globals) :
    Int × Globals :=
  let g1 : Globals := { g with stats := g.stats.missed_cache }
  if s.upper_bound_diamonds < (g1.best.value : ℚ) then
    (-1, { g1 with stats := g1.stats.detect_futile })
  else
    let res := runBuilds bp s ao kindOrder g1
    let w :=
      let r := solve s.wait bp (waitMask s bp) res.2
      (r.1, { r.2 with best := r.2.best.update r.1 })
    let best_res : Int := res.1.foldl max w.1
    (best_res,
      { w.2 with
        cache := fun p =>
          if p = s.pack then some (best_res, s.remaining_turns) else w.2.cache p })

theorem max_useful_eq_max_resource (bp : Blueprint) (k : Kind) :
    max_useful bp k = bp.max_resource k := rfl

theorem gate_diamond (s : State) (bp : Blueprint) (ao : AllowedOptions) :
    buildGate s bp ao Kind.diamond = (s.can_build_diamond bp && ao.diamond) := by
  simp [buildGate, State.can_build_diamond, AllowedOptions.get]

theorem gate_ore (s : State) (bp : Blueprint) (ao : AllowedOptions) :
    buildGate s bp ao Kind.ore =
      (s.can_build_ore bp && ao.ore && decide (s.pack.ore_bots < bp.max_ore)) := by
  simp [buildGate, State.can_build_ore, AllowedOptions.get, Pack.robot,
    max_useful_eq_max_resource, Blueprint.max_ore]

theorem gate_clay (s : State) (bp : Blueprint) (ao : AllowedOptions) :
    buildGate s bp ao Kind.clay =
      (s.can_build_clay bp && ao.clay && decide (s.pack.clay_bots < bp.max_clay)) := by
  simp [buildGate, State.can_build_clay, AllowedOptions.get, Pack.robot,
    max_useful_eq_max_resource, Blueprint.max_clay]

theorem gate_obsidian (s : State) (bp : Blueprint) (ao : AllowedOptions) :
    buildGate s bp ao Kind.obsidian =
      (s.can_build_obsidian bp && ao.obsidian && decide (s.pack.obsidian_bots < bp.max_obsidian)) := by
  simp [buildGate, State.can_build_obsidian, AllowedOptions.get, Pack.robot,
    max_useful_eq_max_resource, Blueprint.max_obsidian]

theorem expand_eq_expandSpec (s : State) (bp : Blueprint) (ao : AllowedOptions) (g : Globals) :
    expand s bp ao g = expandSpec s bp ao g := by
  unfold expand expandSpec
  by_cases hf : s.upper_bound_diamonds < ((({ g with stats := g.stats.missed_cache } : Globals)).best.value : ℚ)
  · simp only [if_pos hf]
  · simp only [if_neg hf]
    simp only [kindOrder, runBuilds, tryBuild, gate_diamond, gate_ore, gate_clay, gate_obsidian,
      State.build, List.foldl]
    set g1 : Globals := { g with stats := g.stats.missed_cache } with hg1
    set d := (if s.can_build_diamond bp && ao.diamond then
        let r := solve (s.build_diamond bp) bp AllowedOptions.allTrue g1
        (r.1, { r.2 with best := r.2.best.update r.1 })
      else (0, g1)) with hd
    set o := (if s.can_build_ore bp && ao.ore && decide (s.pack.ore_bots < bp.max_ore) then
        let r := solve (s.build_ore bp) bp AllowedOptions.allTrue d.2
        (r.1, { r.2 with best := r.2.best.update r.1 })
      else (0, d.2)) with ho
    set c := (if s.can_build_clay bp && ao.clay && decide (s.pack.clay_bots < bp.max_clay) then
        let r := solve (s.build_clay bp) bp AllowedOptions.allTrue o.2
        (r.1, { r.2 with best := r.2.best.update r.1 })
      else (0, o.2)) with hc
    set b := (if s.can_build_obsidian bp && ao.obsidian && decide (s.pack.obsidian_bots < bp.max_obsidian) then
        let r := solve (s.build_obsidian bp) bp AllowedOptions.allTrue c.2
        (r.1, { r.2 with best := r.2.best.update r.1 })
      else (0, c.2)) with hb
    set w := (let r := solve s.wait bp (waitMask s bp) b.2
        (r.1, { r.2 with best := r.2.best.update r.1 })) with hw
    have hmax : max (max (max (max d.1 b.1) c.1) o.1) w.1 =
        max (max (max (max w.1 d.1) o.1) c.1) b.1 := by
      omega
    rw [hmax]

/-- C6: expansion gating and order.  (1) The spec's derived cap
`max_useful[k]` (max over robot kinds `j` of `costs[j][k]`) equals the
code's `Blueprint._max_resource(k)`.  (2) The terminal kind's gate is
affordability and the allowed mask only — no robot-count cap.  (3) The
code's expansion equals the spec-side expansion that tries the kinds in
the fixed priority order (terminal first, then ore, clay, obsidian), each
through the three gates, recursing with the allowed mask reset to
all-true, then the wait branch, then the maximum of explored results.
(4) On a memo miss with turns remaining, `solve` is exactly that
expansion. -/
theorem c6_expansion_gating :
    (∀ (bp : Blueprint) (k : Kind), max_useful bp k = bp.max_resource k) ∧
    (∀ (s : State) (bp : Blueprint) (ao : AllowedOptions),
      buildGate s bp ao Kind.diamond = (s.can_build_diamond bp && ao.diamond)) ∧
    (∀ (s : State) (bp : Blueprint) (ao : AllowedOptions) (g : Globals),
      expand s bp ao g = expandSpec s bp ao g) ∧
    (∀ (s : State) (bp : Blueprint) (ao : AllowedOptions) (g : Globals),
      s.remaining_turns ≠ 0 → g.cache s.pack = none →
      solve s bp ao g = expandSpec s bp ao { g with stats := g.stats.visit_node }) := by
  refine ⟨max_useful_eq_max_resource, gate_diamond, expand_eq_expandSpec, ?_⟩
  intro s bp ao g h0 hc
  rw [solve_cache_none s bp ao g h0 hc]
  exact expand_eq_expandSpec s bp ao { g with stats := g.stats.visit_node }

/-- C6 (witness): the memo-miss leg evaluated at a concrete state and fresh
globals. -/
theorem c6_witness :
    solve sC1 bpDefault AllowedOptions.allTrue freshGlobals =
      expandSpec sC1 bpDefault AllowedOptions.allTrue
        { freshGlobals with stats := freshGlobals.stats.visit_node } :=
  c6_expansion_gating.2.2.2 sC1 bpDefault AllowedOptions.allTrue freshGlobals
    (by decide) rfl

theorem expand_futile (s : State) (bp : Blueprint) (ao : AllowedOptions) (g : Globals)
    (hf : s.upper_bound_diamonds < (g.best.value : ℚ)) :
    expand s bp ao g = (-1, { g with stats := g.stats.missed_cache.detect_futile }) := by
  unfold expand
  simp only [globals_stats_best]
  rw [if_pos hf]

theorem expand_shape (s : State) (bp : Blueprint) (ao : AllowedOptions) (g : Globals) :
    (expand s bp ao g).2.cache s.pack = some ((expand s bp ao g).1, s.remaining_turns) ∨
    ((expand s bp ao g).1 = -1 ∧ (expand s bp ao g).2.cache = g.cache ∧
      (expand s bp ao g).2.best = g.best ∧
      s.upper_bound_diamonds < (g.best.value : ℚ)) := by
  by_cases hf : s.upper_bound_diamonds < (g.best.value : ℚ)
  · right
    rw [expand_futile s bp ao g hf]
    exact ⟨rfl, rfl, rfl, hf⟩
  · left
    unfold expand
    simp only [globals_stats_best]
    rw [if_neg hf]
    simp

theorem solve_run_twice (s : State) (bp : Blueprint) (ao ao' : AllowedOptions) (g : Globals) :
    (solve s bp ao' (solve s bp ao g).2).1 = (solve s bp ao g).1 := by
  by_cases h0 : s.remaining_turns = 0
  · rw [solve_zero s bp ao g h0]
    rw [solve_zero s bp ao' _ h0]
  · cases hc : g.cache s.pack with
    | some vr =>
      obtain ⟨v, r⟩ := vr
      rcases Nat.lt_trichotomy s.remaining_turns r with hlt | heq | hgt
      · rw [solve_stale s bp ao g v r h0 hc hlt]
        dsimp only
        rw [solve_stale s bp ao' { g with stats := g.stats.visit_node.hit_cache } v r h0 hc hlt]
      · rw [solve_exact s bp ao g v r h0 hc heq]
        dsimp only
        rw [solve_exact s bp ao' { g with stats := g.stats.visit_node.hit_cache } v r h0 hc heq]
      · rw [solve_cache_lt s bp ao g v r h0 hc hgt]
        rcases expand_shape s bp ao { g with stats := g.stats.visit_node } with hsh | hsh
        · rw [solve_exact s bp ao' _ _ _ h0 hsh rfl]
        · obtain ⟨hv, hcache, hbest, hub⟩ := hsh
          rw [hv]
          have hc2 : (expand s bp ao { g with stats := g.stats.visit_node }).2.cache s.pack =
              some (v, r) := by
            rw [hcache]
            exact hc
          rw [solve_cache_lt s bp ao' _ v r h0 hc2 hgt]
          rw [expand_futile s bp ao' _ (by rw [globals_stats_best, hbest]; exact hub)]
    | none =>
      rw [solve_cache_none s bp ao g h0 hc]
      rcases expand_shape s bp ao { g with stats := g.stats.visit_node } with hsh | hsh
      · rw [solve_exact s bp ao' _ _ _ h0 hsh rfl]
      · obtain ⟨hv, hcache, hbest, hub⟩ := hsh
        rw [hv]
        have hc2 : (expand s bp ao { g with stats := g.stats.visit_node }).2.cache s.pack =
            none := by
          rw [hcache]
          exact hc
        rw [solve_cache_none s bp ao' _ h0 hc2]
        rw [expand_futile s bp ao' _ (by rw [globals_stats_best, hbest]; exact hub)]

/-- C5: the memo lookup policy of `solve`.  With turns remaining and the
pack found in the table recorded at horizon `r`: (a) if `r` is strictly
greater than the current horizon, `solve` returns the `-1` sentinel without
recursing (only the statistics change); (b) if `r` equals the current
horizon, `solve` returns the stored value; and since the memoize step
stores exactly the call's own result, a repeat call on the globals produced
by any first call returns exactly the first call's value; (c) if `r` is
strictly smaller, `solve` proceeds to the full expansion. -/
theorem c5_memo_policy :
    (∀ (s : State) (bp : Blueprint) (ao : AllowedOptions) (g : Globals) (v : Int) (r : Nat),
      s.remaining_turns ≠ 0 → g.cache s.pack = some (v, r) →
      ((s.remaining_turns < r →
          solve s bp ao g = (-1, { g with stats := g.stats.visit_node.hit_cache })) ∧
        (s.remaining_turns = r →
          solve s bp ao g = (v, { g with stats := g.stats.visit_node.hit_cache })) ∧
        (r < s.remaining_turns →
          solve s bp ao g = expand s bp ao { g with stats := g.stats.visit_node }))) ∧
    (∀ (s : State) (bp : Blueprint) (ao ao' : AllowedOptions) (g : Globals),
      (solve s bp ao' (solve s bp ao g).2).1 = (solve s bp ao g).1) := by
  constructor
  · intro s bp ao g v r h0 hc
    exact ⟨solve_stale s bp ao g v r h0 hc, solve_exact s bp ao g v r h0 hc,
      solve_cache_lt s bp ao g v r h0 hc⟩
  · exact solve_run_twice

/-- C5 (witness): an exact cache hit at a concrete state (the sample globals
record the pack at horizon 1 with value 3) returns the stored value, and a
repeat of a concrete fresh call returns the same value. -/
theorem c5_witness :
    solve { pack := packC1, remaining_turns := 1 } bpDefault AllowedOptions.allTrue gC3 =
      (3, { gC3 with stats := gC3.stats.visit_node.hit_cache }) ∧
    (solve sC1 bpDefault AllowedOptions.allTrue
        (solve sC1 bpDefault AllowedOptions.allTrue freshGlobals).2).1 =
      (solve sC1 bpDefault AllowedOptions.allTrue freshGlobals).1 :=
  ⟨((c5_memo_policy.1 { pack := packC1, remaining_turns := 1 } bpDefault
      AllowedOptions.allTrue gC3 3 1 (by decide) (by decide)).2.1 rfl),
    c5_memo_policy.2 sC1 bpDefault AllowedOptions.allTrue AllowedOptions.allTrue freshGlobals⟩

theorem ub_wait_le (s : State) (h : s.remaining_turns ≠ 0) :
    s.wait.upper_bound_diamonds ≤ s.upper_bound_diamonds := by
  obtain ⟨n, hn⟩ : ∃ n, s.remaining_turns = n + 1 := ⟨s.remaining_turns - 1, by omega⟩
  unfold State.upper_bound_diamonds
  simp only [State.wait, State.step, Pack.produce, hn, Nat.add_sub_cancel]
  push_cast
  have h0 : (0 : ℚ) ≤ (n : ℚ) := by positivity
  nlinarith [h0]

theorem ub_build_le (s : State) (bp : Blueprint) (k : Kind) (hwf : bp.WellFormed)
    (h : s.remaining_turns ≠ 0) :
    (s.build bp k).upper_bound_diamonds ≤ s.upper_bound_diamonds := by
  obtain ⟨n, hn⟩ : ∃ n, s.remaining_turns = n + 1 := ⟨s.remaining_turns - 1, by omega⟩
  have hd := hwf.2 k
  have h0 : (0 : ℚ) ≤ (n : ℚ) := by positivity
  cases k <;>
    (simp only [Blueprint.costOf, Cost.get] at hd
     unfold State.upper_bound_diamonds
     simp only [State.build, State.build_ore, State.build_clay, State.build_obsidian,
       State.build_diamond, State.step, Pack.build_ore, Pack.build_clay, Pack.build_obsidian,
       Pack.build_diamond, Pack.produce, hn, hd, Nat.add_sub_cancel]
     push_cast
     nlinarith [h0])

theorem bruteGo_le_ub (n : Nat) : ∀ (s : State) (bp : Blueprint),
    s.remaining_turns = n → bp.WellFormed →
    ((bruteGo n s bp : Int) : ℚ) ≤ s.upper_bound_diamonds := by
  induction n with
  | zero =>
    intro s bp hn hwf
    unfold bruteGo State.upper_bound_diamonds
    simp [hn]
  | succ n ih =>
    intro s bp hn hwf
    have hne : s.remaining_turns ≠ 0 := by omega
    have hw : ((bruteGo n s.wait bp : Int) : ℚ) ≤ s.upper_bound_diamonds := by
      refine le_trans (ih s.wait bp ?_ hwf) (ub_wait_le s hne)
      rw [wait_remaining, hn]
      omega
    have hb : ∀ k : Kind,
        (match k with
          | Kind.ore => s.build_ore bp
          | Kind.clay => s.build_clay bp
          | Kind.obsidian => s.build_obsidian bp
          | Kind.diamond => s.build_diamond bp) = s.build bp k := by
      intro k
      cases k <;> rfl
    have hd : ∀ k : Kind, ((bruteGo n (s.build bp k) bp : Int) : ℚ) ≤ s.upper_bound_diamonds := by
      intro k
      refine le_trans (ih (s.build bp k) bp ?_ hwf) (ub_build_le s bp k hwf hne)
      rw [build_remaining, hn]
      omega
    unfold bruteGo
    rw [if_neg hne]
    push_cast
    simp only [max_le_iff]
    refine ⟨⟨⟨⟨hw, ?_⟩, ?_⟩, ?_⟩, ?_⟩ <;>
      (split
       · first
         | exact hd Kind.diamond
         | exact hd Kind.ore
         | exact hd Kind.clay
         | exact hd Kind.obsidian
       · exact hw)

/-- C4: admissibility of the upper bound.  For every state and every
well-formed blueprint, `upper_bound_diamonds` is at least the true optimal
terminal diamond yield computed by exhaustive search with pruning and
memoization disabled (`bruteForce`); in particular this holds for every
state reachable from a well-formed initial state. -/
theorem c4_upper_bound_admissible :
    ∀ (s : State) (bp : Blueprint), bp.WellFormed →
      ((bruteForce s bp : Int) : ℚ) ≤ s.upper_bound_diamonds := by
  intro s bp hwf
  exact bruteGo_le_ub s.remaining_turns s bp rfl hwf

/-- C4 (witness): the bound evaluated at a concrete two-turn state under the
default blueprint: the brute-force optimum is 0 and the bound is 3. -/
theorem c4_witness :
    ((bruteForce sC1 bpDefault : Int) : ℚ) ≤ sC1.upper_bound_diamonds :=
  c4_upper_bound_admissible sC1 bpDefault
    ⟨fun k j => by cases k <;> cases j <;> decide, fun k => by cases k <;> decide⟩

theorem ub_nonneg {s : State} (h : s.pack.Nonneg) : 0 ≤ s.upper_bound_diamonds := by
  obtain ⟨_, _, _, h4, _, _, _, h8⟩ := h
  unfold State.upper_bound_diamonds
  have hd : (0 : ℚ) ≤ (s.pack.diamonds : ℚ) := by exact_mod_cast h4
  have hb : (0 : ℚ) ≤ (s.pack.diamond_bots : ℚ) := by exact_mod_cast h8
  have ht : (0 : ℚ) ≤ (s.remaining_turns : ℚ) := by positivity
  nlinarith [ht, hd, hb]

theorem solve_fresh_nonneg (n : Nat) : ∀ (s : State) (bp : Blueprint) (ao : AllowedOptions)
    (g : Globals), s.remaining_turns = n → (∀ p, g.cache p = none) → g.best.value = 0 →
    s.pack.Nonneg → 0 ≤ (solve s bp ao g).1 := by
  induction n with
  | zero =>
    intro s bp ao g hn hc hb hnn
    rw [solve_zero s bp ao g hn]
    exact hnn.2.2.2.1
  | succ n ih =>
    intro s bp ao g hn hc hb hnn
    have h0 : s.remaining_turns ≠ 0 := by omega
    rw [solve_cache_none s bp ao g h0 (hc s.pack)]
    have hub : ¬ (s.upper_bound_diamonds <
        ((({ g with stats := g.stats.visit_node } : Globals)).best.value : ℚ)) := by
      rw [globals_stats_best, hb]
      push_cast
      exact not_lt.mpr (ub_nonneg hnn)
    unfold expand
    rw [if_neg (by simpa only [globals_stats_best] using hub)]
    dsimp only
    have hX : 0 ≤ (if s.can_build_diamond bp && ao.diamond then
        let r := solve (s.build_diamond bp) bp AllowedOptions.allTrue
          { g with stats := g.stats.visit_node.missed_cache }
        (r.1, { r.2 with best := r.2.best.update r.1 })
      else (0, ({ g with stats := g.stats.visit_node.missed_cache } : Globals))).1 := by
      split
      case isTrue hgate =>
        have hcb : s.pack.can_build Kind.diamond bp = true := by
          simp only [Bool.and_eq_true] at hgate
          exact hgate.1
        refine ih (s.build_diamond bp) bp AllowedOptions.allTrue _ ?_ (fun p => hc p) hb ?_
        · rw [build_diamond_remaining, hn]
          omega
        · have := produce_nonneg (build_nonneg hnn hcb)
          simpa using this
      case isFalse => exact le_refl 0
    refine le_trans hX ?_
    simp only [le_max_iff]
    exact Or.inl (Or.inl (Or.inl (Or.inl (le_refl _))))

/-- A blueprint under which every robot costs one of each base resource
(the diamond robot costs two ore), so that every gate can pass at once. -/
def bpC10 : Blueprint :=
  { ore := ⟨1, 1, 1, 0⟩, clay := ⟨1, 1, 1, 0⟩, obsidian := ⟨1, 1, 1, 0⟩, diamond := ⟨2, 1, 1, 0⟩ }

/-- A pack that affords all four robots under `bpC10` with every robot-count
cap unmet. -/
def packC10 : Pack := { ore := 5, clay := 5, obsidian := 5, ore_bots := 1 }

/-- Globals whose memo table holds every pack other than `packC10` at the
recorded horizon 9 — so every child of the root is a stale hit. -/
def gC10 : Globals :=
  { cache := fun p => if p = packC10 then none else some (0, 9)
    stats := {}
    best := { value := 0 } }

/-- The root state for the C10 counterexample. -/
def sC10 : State := { pack := packC10, remaining_turns := 2 }

/-- C10 (counterexample): a combine-and-memoize step that writes the `-1`
sentinel into the memo table.  At `sC10` all four build gates pass (so no
accumulator stays at its initial `0`), every child call is a stale cache
hit returning `-1`, and the step memoizes and returns `-1`; the subsequent
identical call is an exact cache hit returning the sentinel. -/
theorem c10_counterexample :
    ((sC10.can_build_diamond bpC10 && AllowedOptions.allTrue.diamond) = true ∧
      (sC10.can_build_ore bpC10 && AllowedOptions.allTrue.ore &&
        decide (sC10.pack.ore_bots < bpC10.max_ore)) = true ∧
      (sC10.can_build_clay bpC10 && AllowedOptions.allTrue.clay &&
        decide (sC10.pack.clay_bots < bpC10.max_clay)) = true ∧
      (sC10.can_build_obsidian bpC10 && AllowedOptions.allTrue.obsidian &&
        decide (sC10.pack.obsidian_bots < bpC10.max_obsidian)) = true) ∧
    (solve sC10 bpC10 AllowedOptions.allTrue gC10).2.cache packC10 = some (-1, 2) ∧
    (solve sC10 bpC10 AllowedOptions.allTrue gC10).1 = -1 ∧
    (solve sC10 bpC10 AllowedOptions.allTrue
        (solve sC10 bpC10 AllowedOptions.allTrue gC10).2).1 = -1 := by
  refine ⟨by decide, ?_, ?_, ?_⟩ <;>
    norm_num [solve, solveGo, sC10, gC10, packC10, bpC10, State.upper_bound_diamonds,
      State.can_build_diamond, State.can_build_ore, State.can_build_clay,
      State.can_build_obsidian, Pack.can_build, Blueprint.costOf, Blueprint.max_ore,
      Blueprint.max_clay, Blueprint.max_obsidian, Blueprint.max_resource, Cost.get,
      State.build_diamond, State.build_ore, State.build_clay, State.build_obsidian,
      State.wait, State.step, Pack.build_diamond, Pack.build_ore, Pack.build_clay,
      Pack.build_obsidian, Pack.produce, waitMask, AllowedOptions.allTrue,
      BestObserved.update]

/-- C10 (amended): a value written by the combine-and-memoize step can be
the `-1` sentinel when all four build branches are explored (see the
counterexample), but a top-level `solve` invocation on an empty memo table
with a reset best-observed bound (0) and a non-negative initial pack
returns a non-negative integer for every horizon. -/
theorem c10_toplevel_nonneg :
    ∀ (s : State) (bp : Blueprint) (ao : AllowedOptions) (g : Globals),
      (∀ p, g.cache p = none) → g.best.value = 0 → s.pack.Nonneg →
      0 ≤ (solve s bp ao g).1 := by
  intro s bp ao g hc hb hnn
  exact solve_fresh_nonneg s.remaining_turns s bp ao g rfl hc hb hnn

/-- C10 (witness): the amended statement at a concrete fresh invocation. -/
theorem c10_witness :
    0 ≤ (solve sC1 bpDefault AllowedOptions.allTrue freshGlobals).1 :=
  c10_toplevel_nonneg sC1 bpDefault AllowedOptions.allTrue freshGlobals
    (fun _ => rfl) rfl (by decide)

theorem max5_le_max5 (w d o c b w' d' o' c' b' : Int) (hw : w ≤ w')
    (hd : d ≤ d' ∨ d ≤ w') (ho : o ≤ o' ∨ o ≤ w') (hc : c ≤ c' ∨ c ≤ w')
    (hb : b ≤ b' ∨ b ≤ w') :
    max (max (max (max w d) o) c) b ≤ max (max (max (max w' d') o') c') b' := by
  rcases hd with hd | hd <;> rcases ho with ho | ho <;> rcases hc with hc | hc <;>
    rcases hb with hb | hb <;> omega

/-- Domination order used for exchange arguments: same robots, componentwise
at most the resources. -/
def Pack.le_res (p q : Pack) : Prop :=
  p.ore ≤ q.ore ∧ p.clay ≤ q.clay ∧ p.obsidian ≤ q.obsidian ∧ p.diamonds ≤ q.diamonds ∧
    p.ore_bots = q.ore_bots ∧ p.clay_bots = q.clay_bots ∧ p.obsidian_bots = q.obsidian_bots ∧
    p.diamond_bots = q.diamond_bots

theorem le_res_produce {p q : Pack} (h : p.le_res q) : p.produce.le_res q.produce := by
  obtain ⟨h1, h2, h3, h4, h5, h6, h7, h8⟩ := h
  exact ⟨by simp [Pack.produce]; omega, by simp [Pack.produce]; omega,
    by simp [Pack.produce]; omega, by simp [Pack.produce]; omega,
    by simp [Pack.produce]; omega, by simp [Pack.produce]; omega,
    by simp [Pack.produce]; omega, by simp [Pack.produce]; omega⟩

theorem le_res_can_build {p q : Pack} {bp : Blueprint} {k : Kind} (h : p.le_res q)
    (hc : p.can_build k bp = true) : q.can_build k bp = true := by
  obtain ⟨h1, h2, h3, h4, h5, h6, h7, h8⟩ := h
  simp only [Pack.can_build, Bool.and_eq_true, decide_eq_true_eq] at hc ⊢
  omega

theorem le_res_build {p q : Pack} {bp : Blueprint} {k : Kind} (h : p.le_res q) :
    (match k with
      | Kind.ore => p.build_ore bp
      | Kind.clay => p.build_clay bp
      | Kind.obsidian => p.build_obsidian bp
      | Kind.diamond => p.build_diamond bp).le_res
    (match k with
      | Kind.ore => q.build_ore bp
      | Kind.clay => q.build_clay bp
      | Kind.obsidian => q.build_obsidian bp
      | Kind.diamond => q.build_diamond bp) := by
  obtain ⟨h1, h2, h3, h4, h5, h6, h7, h8⟩ := h
  cases k <;>
    (refine ⟨?_, ?_, ?_, ?_, ?_, ?_, ?_, ?_⟩ <;>
      simp [Pack.build_ore, Pack.build_clay, Pack.build_obsidian, Pack.build_diamond] <;>
      omega)

theorem bruteGo_succ (n : Nat) (s : State) (bp : Blueprint) (h : s.remaining_turns ≠ 0) :
    bruteGo (n + 1) s bp =
      max (max (max (max (bruteGo n s.wait bp)
        (if s.pack.can_build Kind.diamond bp then bruteGo n (s.build_diamond bp) bp
          else bruteGo n s.wait bp))
        (if s.pack.can_build Kind.ore bp then bruteGo n (s.build_ore bp) bp
          else bruteGo n s.wait bp))
        (if s.pack.can_build Kind.clay bp then bruteGo n (s.build_clay bp) bp
          else bruteGo n s.wait bp))
        (if s.pack.can_build Kind.obsidian bp then bruteGo n (s.build_obsidian bp) bp
          else bruteGo n s.wait bp) := by
  conv_lhs => rw [bruteGo]
  rw [if_neg h]

theorem bruteGo_ge_diamonds (n : Nat) : ∀ (s : State) (bp : Blueprint), s.pack.Nonneg →
    s.pack.diamonds ≤ bruteGo n s bp := by
  induction n with
  | zero =>
    intro s bp h
    unfold bruteGo
    exact le_refl _
  | succ n ih =>
    intro s bp h
    by_cases h0 : s.remaining_turns = 0
    · unfold bruteGo
      rw [if_pos h0]
    · rw [bruteGo_succ n s bp h0]
      have hw : s.pack.diamonds ≤ bruteGo n s.wait bp := by
        have := ih s.wait bp (produce_nonneg h)
        have hd : s.pack.diamonds ≤ s.wait.pack.diamonds := by
          obtain ⟨_, _, _, _, _, _, _, h8⟩ := h
          simp [State.wait, State.step, Pack.produce]
          omega
        omega
      omega

theorem bruteGo_mono_res (n : Nat) : ∀ (t : Nat) (p q : Pack) (bp : Blueprint),
    p.le_res q → bruteGo n { pack := p, remaining_turns := t } bp ≤
      bruteGo n { pack := q, remaining_turns := t } bp := by
  induction n with
  | zero =>
    intro t p q bp h
    unfold bruteGo
    exact h.2.2.2.1
  | succ n ih =>
    intro t p q bp h
    by_cases h0 : t = 0
    · unfold bruteGo
      simp only [h0, if_pos]
      exact h.2.2.2.1
    · have h0' : ({ pack := p, remaining_turns := t } : State).remaining_turns ≠ 0 := h0
      have h0'' : ({ pack := q, remaining_turns := t } : State).remaining_turns ≠ 0 := h0
      rw [bruteGo_succ n _ bp h0', bruteGo_succ n _ bp h0'']
      have hwait : bruteGo n ({ pack := p, remaining_turns := t } : State).wait bp ≤
          bruteGo n ({ pack := q, remaining_turns := t } : State).wait bp := by
        have : (({ pack := p, remaining_turns := t } : State).wait) =
            { pack := p.produce, remaining_turns := t - 1 } := rfl
        rw [this]
        have : (({ pack := q, remaining_turns := t } : State).wait) =
            { pack := q.produce, remaining_turns := t - 1 } := rfl
        rw [this]
        exact ih (t - 1) p.produce q.produce bp (le_res_produce h)
      have hbuild : ∀ k : Kind,
          p.can_build k bp = true →
          bruteGo n (({ pack := p, remaining_turns := t } : State).build bp k) bp ≤
            bruteGo n (({ pack := q, remaining_turns := t } : State).build bp k) bp := by
        intro k _
        have hp : (({ pack := p, remaining_turns := t } : State).build bp k) =
            { pack := ((match k with
              | Kind.ore => p.build_ore bp
              | Kind.clay => p.build_clay bp
              | Kind.obsidian => p.build_obsidian bp
              | Kind.diamond => p.build_diamond bp)).produce, remaining_turns := t - 1 } := by
          cases k <;> rfl
        have hq : (({ pack := q, remaining_turns := t } : State).build bp k) =
            { pack := ((match k with
              | Kind.ore => q.build_ore bp
              | Kind.clay => q.build_clay bp
              | Kind.obsidian => q.build_obsidian bp
              | Kind.diamond => q.build_diamond bp)).produce, remaining_turns := t - 1 } := by
          cases k <;> rfl
        rw [hp, hq]
        exact ih (t - 1) _ _ bp (le_res_produce (le_res_build h))
      have hbo : ∀ k : Kind,
          (if p.can_build k bp then
            bruteGo n (({ pack := p, remaining_turns := t } : State).build bp k) bp
          else bruteGo n ({ pack := p, remaining_turns := t } : State).wait bp) ≤
          (if q.can_build k bp then
            bruteGo n (({ pack := q, remaining_turns := t } : State).build bp k) bp
          else bruteGo n ({ pack := q, remaining_turns := t } : State).wait bp) ∨
          (if p.can_build k bp then
            bruteGo n (({ pack := p, remaining_turns := t } : State).build bp k) bp
          else bruteGo n ({ pack := p, remaining_turns := t } : State).wait bp) ≤
          bruteGo n ({ pack := q, remaining_turns := t } : State).wait bp := by
        intro k
        by_cases hck : p.can_build k bp = true
        · rw [if_pos hck, if_pos (le_res_can_build h hck)]
          exact Or.inl (hbuild k hck)
        · rw [if_neg hck]
          exact Or.inr hwait
      have hd := hbo Kind.diamond
      have ho := hbo Kind.ore
      have hc := hbo Kind.clay
      have hb := hbo Kind.obsidian
      simp only [State.build] at hd ho hc hb
      exact max5_le_max5 _ _ _ _ _ _ _ _ _ _ hwait hd ho hc hb

theorem le_max5_w (w d o c b : Int) : w ≤ max (max (max (max w d) o) c) b := by omega

theorem le_max5_d (w d o c b : Int) : d ≤ max (max (max (max w d) o) c) b := by omega

theorem le_max5_o (w d o c b : Int) : o ≤ max (max (max (max w d) o) c) b := by omega

theorem le_max5_c (w d o c b : Int) : c ≤ max (max (max (max w d) o) c) b := by omega

theorem le_max5_b (w d o c b : Int) : b ≤ max (max (max (max w d) o) c) b := by omega

theorem le_res_self_produce {p : Pack} (h : p.Nonneg) : p.le_res p.produce := by
  obtain ⟨h1, h2, h3, h4, h5, h6, h7, h8⟩ := h
  refine ⟨?_, ?_, ?_, ?_, ?_, ?_, ?_, ?_⟩ <;> simp [Pack.produce] <;> omega

theorem bruteForce_turn_succ (p : Pack) (bp : Blueprint) (t : Nat) (h : p.Nonneg) :
    bruteForce { pack := p, remaining_turns := t } bp ≤
      bruteForce { pack := p, remaining_turns := t + 1 } bp := by
  unfold bruteForce
  rw [bruteGo_succ t { pack := p, remaining_turns := t + 1 } bp (by simp)]
  have hwle : bruteGo t ({ pack := p, remaining_turns := t } : State) bp ≤
      bruteGo t (({ pack := p, remaining_turns := t + 1 } : State)).wait bp := by
    have hwq : (({ pack := p, remaining_turns := t + 1 } : State)).wait =
        { pack := p.produce, remaining_turns := t } := rfl
    rw [hwq]
    exact bruteGo_mono_res t t p p.produce bp (le_res_self_produce h)
  exact le_trans hwle (le_max5_w _ _ _ _ _)

theorem bf_turn_mono (p : Pack) (bp : Blueprint) (h : p.Nonneg) {t r : Nat} (htr : t ≤ r) :
    bruteForce { pack := p, remaining_turns := t } bp ≤
      bruteForce { pack := p, remaining_turns := r } bp := by
  induction r with
  | zero =>
    have : t = 0 := by omega
    rw [this]
  | succ r ih =>
    rcases Nat.lt_or_ge t (r + 1) with hlt | hge
    · exact le_trans (ih (by omega)) (bruteForce_turn_succ p bp r h)
    · have : t = r + 1 := by omega
      rw [this]

theorem bf_ge_wait (s : State) (bp : Blueprint) (h : s.remaining_turns ≠ 0) :
    bruteForce s.wait bp ≤ bruteForce s bp := by
  obtain ⟨n, hn⟩ : ∃ n, s.remaining_turns = n + 1 := ⟨s.remaining_turns - 1, by omega⟩
  unfold bruteForce
  rw [wait_remaining, hn, Nat.add_sub_cancel, bruteGo_succ n s bp h]
  exact le_max5_w _ _ _ _ _

theorem bf_ge_build (s : State) (bp : Blueprint) (k : Kind) (h : s.remaining_turns ≠ 0)
    (hc : s.pack.can_build k bp = true) :
    bruteForce (s.build bp k) bp ≤ bruteForce s bp := by
  obtain ⟨n, hn⟩ : ∃ n, s.remaining_turns = n + 1 := ⟨s.remaining_turns - 1, by omega⟩
  unfold bruteForce
  rw [build_remaining, hn, Nat.add_sub_cancel, bruteGo_succ n s bp h]
  cases k
  case ore =>
    rw [show s.build bp Kind.ore = s.build_ore bp from rfl]
    rw [show (if s.pack.can_build Kind.ore bp then bruteGo n (s.build_ore bp) bp
      else bruteGo n s.wait bp) = bruteGo n (s.build_ore bp) bp from if_pos hc] at *
    exact le_max5_o _ _ _ _ _
  case clay =>
    rw [show s.build bp Kind.clay = s.build_clay bp from rfl]
    rw [show (if s.pack.can_build Kind.clay bp then bruteGo n (s.build_clay bp) bp
      else bruteGo n s.wait bp) = bruteGo n (s.build_clay bp) bp from if_pos hc] at *
    exact le_max5_c _ _ _ _ _
  case obsidian =>
    rw [show s.build bp Kind.obsidian = s.build_obsidian bp from rfl]
    rw [show (if s.pack.can_build Kind.obsidian bp then bruteGo n (s.build_obsidian bp) bp
      else bruteGo n s.wait bp) = bruteGo n (s.build_obsidian bp) bp from if_pos hc] at *
    exact le_max5_b _ _ _ _ _
  case diamond =>
    rw [show s.build bp Kind.diamond = s.build_diamond bp from rfl]
    rw [show (if s.pack.can_build Kind.diamond bp then bruteGo n (s.build_diamond bp) bp
      else bruteGo n s.wait bp) = bruteGo n (s.build_diamond bp) bp from if_pos hc] at *
    exact le_max5_d _ _ _ _ _

theorem bf_le_of_legs (s : State) (bp : Blueprint) (X : Int) (h0 : s.remaining_turns ≠ 0)
    (hw : bruteForce s.wait bp ≤ X)
    (hb : ∀ k, s.pack.can_build k bp = true → bruteForce (s.build bp k) bp ≤ X) :
    bruteForce s bp ≤ X := by
  obtain ⟨n, hn⟩ : ∃ n, s.remaining_turns = n + 1 := ⟨s.remaining_turns - 1, by omega⟩
  unfold bruteForce at *
  rw [wait_remaining, hn, Nat.add_sub_cancel] at hw
  simp only [build_remaining, hn, Nat.add_sub_cancel] at hb
  rw [hn, bruteGo_succ n s bp h0]
  have hleg : ∀ k : Kind,
      (if s.pack.can_build k bp then bruteGo n (s.build bp k) bp else bruteGo n s.wait bp) ≤ X := by
    intro k
    split
    case isTrue hck => exact hb k hck
    case isFalse => exact hw
  have hd := hleg Kind.diamond
  have ho := hleg Kind.ore
  have hc := hleg Kind.clay
  have hob := hleg Kind.obsidian
  simp only [State.build] at hd ho hc hob
  exact max_le (max_le (max_le (max_le hw hd) ho) hc) hob

/-- Pack-level build dispatch (before the production step). -/
def Pack.buildK (p : Pack) (bp : Blueprint) : Kind → Pack
  | Kind.ore => p.build_ore bp
  | Kind.clay => p.build_clay bp
  | Kind.obsidian => p.build_obsidian bp
  | Kind.diamond => p.build_diamond bp

theorem buildK_pack_eq (s : State) (bp : Blueprint) (k : Kind) :
    (s.build bp k).pack = (s.pack.buildK bp k).produce := by
  cases k <;> rfl

theorem produce_resource (p : Pack) (j : Kind) :
    p.produce.resource j = p.resource j + p.robot j := by cases j <;> rfl

theorem produce_robot (p : Pack) (j : Kind) : p.produce.robot j = p.robot j := by
  cases j <;> rfl

theorem buildK_resource (p : Pack) (bp : Blueprint) (k j : Kind) :
    (p.buildK bp k).resource j = p.resource j - (bp.costOf k).get j := by
  cases k <;> cases j <;>
    simp [Pack.buildK, Pack.build_ore, Pack.build_clay, Pack.build_obsidian,
      Pack.build_diamond, Pack.resource, Blueprint.costOf, Cost.get]

theorem buildK_robot (p : Pack) (bp : Blueprint) (k j : Kind) :
    (p.buildK bp k).robot j = p.robot j + (if j = k then 1 else 0) := by
  cases k <;> cases j <;>
    simp [Pack.buildK, Pack.build_ore, Pack.build_clay, Pack.build_obsidian,
      Pack.build_diamond, Pack.robot]

theorem can_build_res_iff (p : Pack) (bp : Blueprint) (j : Kind) :
    p.can_build j bp = true ↔ ∀ m, (bp.costOf j).get m ≤ p.resource m := by
  simp only [Pack.can_build, Bool.and_eq_true, decide_eq_true_eq]
  constructor
  · rintro ⟨⟨⟨h1, h2⟩, h3⟩, h4⟩ m
    cases m <;> simpa [Cost.get, Pack.resource]
  · intro h
    exact ⟨⟨⟨h Kind.ore, h Kind.clay⟩, h Kind.obsidian⟩, h Kind.diamond⟩

theorem cost_le_cap (bp : Blueprint) (j k : Kind) :
    (bp.costOf j).get k ≤ bp.max_resource k := by
  cases j <;> simp [Blueprint.costOf, Blueprint.max_resource] <;> omega

theorem cap_nonneg {bp : Blueprint} (hwf : bp.WellFormed) (k : Kind) :
    0 ≤ bp.max_resource k := by
  have := hwf.1 Kind.ore k
  have h2 := cost_le_cap bp Kind.ore k
  omega

/-- Exchange relation for the robot-count cap argument on kind `k`: `P` has
one more kind-`k` robot than `Q` (already at or above the cap in `Q`), `Q`
is at least as rich in every other resource, and `Q`'s kind-`k` stock is
non-negative and at least the smaller of `P`'s stock and the cap. -/
def CapRel (bp : Blueprint) (k : Kind) (P Q : Pack) : Prop :=
  (∀ j, j ≠ k → P.resource j ≤ Q.resource j) ∧
  min (P.resource k) (bp.max_resource k) ≤ Q.resource k ∧
  0 ≤ Q.resource k ∧
  (∀ j, j ≠ k → Q.robot j = P.robot j) ∧
  P.robot k = Q.robot k + 1 ∧
  bp.max_resource k ≤ Q.robot k

theorem caprel_can_build {bp : Blueprint} {k : Kind} {P Q : Pack} (h : CapRel bp k P Q)
    {j : Kind} (hc : P.can_build j bp = true) : Q.can_build j bp = true := by
  obtain ⟨hres, hmin, hq0, hrob, hrk, hcap⟩ := h
  rw [can_build_res_iff] at hc ⊢
  intro m
  by_cases hm : m = k
  · subst hm
    have h1 := hc m
    have h2 := cost_le_cap bp j m
    omega
  · have := hres m hm
    have := hc m
    omega

theorem caprel_produce {bp : Blueprint} {k : Kind} {P Q : Pack} (hwf : bp.WellFormed)
    (h : CapRel bp k P Q) : CapRel bp k P.produce Q.produce := by
  obtain ⟨hres, hmin, hq0, hrob, hrk, hcap⟩ := h
  have hc0 := cap_nonneg hwf k
  refine ⟨?_, ?_, ?_, ?_, ?_, ?_⟩
  · intro j hj
    simp only [produce_resource, produce_robot, buildK_resource, buildK_robot]
    have := hres j hj
    have := hrob j hj
    omega
  · simp only [produce_resource, produce_robot, buildK_resource, buildK_robot]
    omega
  · simp only [produce_resource, produce_robot, buildK_resource, buildK_robot]
    omega
  · intro j hj
    simp only [produce_resource, produce_robot, buildK_resource, buildK_robot]
    exact hrob j hj
  · simp only [produce_resource, produce_robot, buildK_resource, buildK_robot]
    exact hrk
  · simp only [produce_resource, produce_robot, buildK_resource, buildK_robot]
    exact hcap

theorem caprel_build {bp : Blueprint} {k : Kind} {P Q : Pack} (hwf : bp.WellFormed)
    (h : CapRel bp k P Q) {j : Kind} (hcP : P.can_build j bp = true)
    (hcQ : Q.can_build j bp = true) :
    CapRel bp k ((P.buildK bp j).produce) ((Q.buildK bp j).produce) := by
  obtain ⟨hres, hmin, hq0, hrob, hrk, hcap⟩ := h
  have hc0 := cap_nonneg hwf k
  have hcostk := cost_le_cap bp j k
  rw [can_build_res_iff] at hcP hcQ
  refine ⟨?_, ?_, ?_, ?_, ?_, ?_⟩
  · intro m hm
    simp only [produce_resource, produce_robot, buildK_resource, buildK_robot]
    have := hres m hm
    have := hrob m hm
    omega
  · simp only [produce_resource, produce_robot, buildK_resource, buildK_robot]
    have := hcQ k
    omega
  · simp only [produce_resource, produce_robot, buildK_resource, buildK_robot]
    have := hcQ k
    omega
  · intro m hm
    simp only [produce_resource, produce_robot, buildK_resource, buildK_robot]
    have := hrob m hm
    omega
  · simp only [produce_resource, produce_robot, buildK_resource, buildK_robot]
    omega
  · simp only [produce_resource, produce_robot, buildK_resource, buildK_robot]
    omega

theorem capdom (bp : Blueprint) (k : Kind) (hwf : bp.WellFormed) (hk : k ≠ Kind.diamond)
    (n : Nat) : ∀ (t : Nat) (P Q : Pack), CapRel bp k P Q →
    bruteGo n { pack := P, remaining_turns := t } bp ≤
      bruteGo n { pack := Q, remaining_turns := t } bp := by
  induction n with
  | zero =>
    intro t P Q h
    unfold bruteGo
    have := h.1 Kind.diamond (by intro hcon; exact hk hcon.symm)
    simpa [Pack.resource] using this
  | succ n ih =>
    intro t P Q h
    by_cases h0 : t = 0
    · unfold bruteGo
      simp only [h0, if_pos]
      have := h.1 Kind.diamond (by intro hcon; exact hk hcon.symm)
      simpa [Pack.resource] using this
    · have h0' : ({ pack := P, remaining_turns := t } : State).remaining_turns ≠ 0 := h0
      have h0'' : ({ pack := Q, remaining_turns := t } : State).remaining_turns ≠ 0 := h0
      rw [bruteGo_succ n _ bp h0', bruteGo_succ n _ bp h0'']
      have hwait : bruteGo n ({ pack := P, remaining_turns := t } : State).wait bp ≤
          bruteGo n ({ pack := Q, remaining_turns := t } : State).wait bp := by
        have e1 : (({ pack := P, remaining_turns := t } : State)).wait =
            { pack := P.produce, remaining_turns := t - 1 } := rfl
        have e2 : (({ pack := Q, remaining_turns := t } : State)).wait =
            { pack := Q.produce, remaining_turns := t - 1 } := rfl
        rw [e1, e2]
        exact ih (t - 1) _ _ (caprel_produce hwf h)
      have hbo : ∀ j : Kind,
          (if P.can_build j bp then
            bruteGo n (({ pack := P, remaining_turns := t } : State).build bp j) bp
          else bruteGo n ({ pack := P, remaining_turns := t } : State).wait bp) ≤
          (if Q.can_build j bp then
            bruteGo n (({ pack := Q, remaining_turns := t } : State).build bp j) bp
          else bruteGo n ({ pack := Q, remaining_turns := t } : State).wait bp) ∨
          (if P.can_build j bp then
            bruteGo n (({ pack := P, remaining_turns := t } : State).build bp j) bp
          else bruteGo n ({ pack := P, remaining_turns := t } : State).wait bp) ≤
          bruteGo n ({ pack := Q, remaining_turns := t } : State).wait bp := by
        intro j
        by_cases hcP : P.can_build j bp = true
        · have hcQ := caprel_can_build h hcP
          rw [if_pos hcP, if_pos hcQ]
          left
          have e1 : (({ pack := P, remaining_turns := t } : State)).build bp j =
              { pack := (P.buildK bp j).produce, remaining_turns := t - 1 } := by
            cases j <;> rfl
          have e2 : (({ pack := Q, remaining_turns := t } : State)).build bp j =
              { pack := (Q.buildK bp j).produce, remaining_turns := t - 1 } := by
            cases j <;> rfl
          rw [e1, e2]
          exact ih (t - 1) _ _ (caprel_build hwf h hcP hcQ)
        · rw [if_neg hcP]
          exact Or.inr hwait
      have hd := hbo Kind.diamond
      have ho := hbo Kind.ore
      have hc := hbo Kind.clay
      have hb := hbo Kind.obsidian
      simp only [State.build] at hd ho hc hb
      exact max5_le_max5 _ _ _ _ _ _ _ _ _ _ hwait hd ho hc hb

theorem cap_build_le_wait (s : State) (bp : Blueprint) (k : Kind) (hwf : bp.WellFormed)
    (hk : k ≠ Kind.diamond) (hnn : s.pack.Nonneg) (hcb : s.pack.can_build k bp = true)
    (hcap : bp.max_resource k ≤ s.pack.robot k) :
    bruteForce (s.build bp k) bp ≤ bruteForce s.wait bp := by
  have hres : ∀ j, 0 ≤ s.pack.resource j := by
    intro j
    obtain ⟨h1, h2, h3, h4, _, _, _, _⟩ := hnn
    cases j <;> simpa [Pack.resource]
  have hrob : ∀ j, 0 ≤ s.pack.robot j := by
    intro j
    obtain ⟨_, _, _, _, h5, h6, h7, h8⟩ := hnn
    cases j <;> simpa [Pack.robot]
  have hcost : ∀ j m, 0 ≤ (bp.costOf j).get m := hwf.1
  rw [can_build_res_iff] at hcb
  have hrel : CapRel bp k ((s.pack.buildK bp k).produce) (s.pack.produce) := by
    refine ⟨?_, ?_, ?_, ?_, ?_, ?_⟩
    · intro j hj
      simp only [produce_resource, produce_robot, buildK_resource, buildK_robot]
      have := hcost k j
      simp [hj]
      omega
    · simp only [produce_resource, produce_robot, buildK_resource, buildK_robot]
      have := hcb k
      have := hres k
      have := hcost k k
      simp
      omega
    · simp only [produce_resource, produce_robot, buildK_resource, buildK_robot]
      have := hres k
      have := hrob k
      omega
    · intro j hj
      simp only [produce_resource, produce_robot, buildK_resource, buildK_robot]
      simp [hj]
    · simp only [produce_resource, produce_robot, buildK_resource, buildK_robot]
      simp
    · simp only [produce_resource, produce_robot, buildK_resource, buildK_robot]
      exact hcap
  have e1 : s.build bp k = ⟨(s.pack.buildK bp k).produce, s.remaining_turns - 1⟩ := by
    cases k <;> rfl
  have e2 : s.wait = ⟨s.pack.produce, s.remaining_turns - 1⟩ := rfl
  unfold bruteForce
  rw [e1, e2]
  exact capdom bp k hwf hk (s.remaining_turns - 1) (s.remaining_turns - 1) _ _ hrel

theorem allTrue_get (k : Kind) : AllowedOptions.allTrue.get k = true := by
  cases k <;> rfl

theorem update_value (b : BestObserved) (v : Int) : (b.update v).value = max b.value v := rfl

theorem le_res_of_indexed {p q : Pack} (hres : ∀ j, p.resource j ≤ q.resource j)
    (hrob : ∀ j, p.robot j = q.robot j) : p.le_res q :=
  ⟨hres Kind.ore, hres Kind.clay, hres Kind.obsidian, hres Kind.diamond,
    hrob Kind.ore, hrob Kind.clay, hrob Kind.obsidian, hrob Kind.diamond⟩

/-- Waiting first and then building `k` is dominated by building `k` first
and then waiting: the latter ends with the same robots and at least the
same resources (one extra unit of resource `k`). -/
theorem wait_build_le_build_wait (s : State) (bp : Blueprint) (k : Kind) :
    bruteForce ((s.wait).build bp k) bp ≤ bruteForce ((s.build bp k).wait) bp := by
  have e1 : (s.wait).build bp k =
      ⟨((s.pack.produce).buildK bp k).produce, s.remaining_turns - 1 - 1⟩ := by
    cases k <;> rfl
  have e2 : (s.build bp k).wait =
      ⟨((s.pack.buildK bp k).produce).produce, s.remaining_turns - 1 - 1⟩ := by
    cases k <;> rfl
  rw [e1, e2]
  unfold bruteForce
  apply bruteGo_mono_res
  apply le_res_of_indexed
  · intro j
    simp only [produce_resource, produce_robot, buildK_resource, buildK_robot]
    by_cases hj : j = k <;> simp [hj] <;> omega
  · intro j
    simp only [produce_robot, buildK_robot]

/-- The invariant carried through the search: the best-observed bound is
non-negative, and every memo entry is for a non-negative pack, stores a
value bounded by the true optimum at the recorded horizon, and both the
true optimum and the stored value are covered by the bound. -/
def CacheOK (bp : Blueprint) (g : Globals) : Prop :=
  0 ≤ g.best.value ∧
  ∀ P v r, g.cache P = some (v, r) →
    Pack.Nonneg P ∧ v ≤ bruteForce { pack := P, remaining_turns := r } bp ∧
    bruteForce { pack := P, remaining_turns := r } bp ≤ g.best.value ∧ v ≤ g.best.value

/-- The justification carried for the restriction mask: any kind the mask
forbids that is affordable and not blocked by the robot-count cap has its
build child's true optimum already covered by the best-observed bound. -/
def MaskOK (bp : Blueprint) (s : State) (ao : AllowedOptions) (g : Globals) : Prop :=
  ∀ k, s.remaining_turns ≠ 0 → ao.get k = false → s.pack.can_build k bp = true →
    (k = Kind.diamond ∨ s.pack.robot k < bp.max_resource k) →
    bruteForce (s.build bp k) bp ≤ g.best.value

theorem cacheok_of_le (bp : Blueprint) {g g' : Globals} (h : CacheOK bp g)
    (hcache : g'.cache = g.cache) (hbest : g.best.value ≤ g'.best.value) : CacheOK bp g' := by
  obtain ⟨h0, hent⟩ := h
  refine ⟨by omega, ?_⟩
  intro P v r hPe
  rw [hcache] at hPe
  obtain ⟨a, b, c, d⟩ := hent P v r hPe
  exact ⟨a, b, by omega, by omega⟩

/-- One build-branch step of the expansion as a function (mirrors the code's
per-kind block). -/
def branchStep (child : State) (bp : Blueprint) (cond : Bool) (g : Globals) : Int × Globals :=
  if cond then
    let r := solve child bp AllowedOptions.allTrue g
    (r.1, { r.2 with best := r.2.best.update r.1 })
  else (0, g)

/-- The wait step of the expansion as a function. -/
def waitStepFn (s : State) (bp : Blueprint) (g : Globals) : Int × Globals :=
  let r := solve s.wait bp (waitMask s bp) g
  (r.1, { r.2 with best := r.2.best.update r.1 })

theorem expand_main_eq (s : State) (bp : Blueprint) (ao : AllowedOptions) (g : Globals)
    (hf : ¬ s.upper_bound_diamonds < (g.best.value : ℚ)) :
    expand s bp ao g =
      (let g1 : Globals := { g with stats := g.stats.missed_cache }
       let d := branchStep (s.build_diamond bp) bp (s.can_build_diamond bp && ao.diamond) g1
       let o := branchStep (s.build_ore bp) bp
         (s.can_build_ore bp && ao.ore && decide (s.pack.ore_bots < bp.max_ore)) d.2
       let c := branchStep (s.build_clay bp) bp
         (s.can_build_clay bp && ao.clay && decide (s.pack.clay_bots < bp.max_clay)) o.2
       let b := branchStep (s.build_obsidian bp) bp
         (s.can_build_obsidian bp && ao.obsidian && decide (s.pack.obsidian_bots < bp.max_obsidian)) c.2
       let w := waitStepFn s bp b.2
       let best_res : Int := max (max (max (max d.1 b.1) c.1) o.1) w.1
       (best_res,
         { w.2 with
           cache := fun p =>
             if p = s.pack then some (best_res, s.remaining_turns) else w.2.cache p })) := by
  unfold expand branchStep waitStepFn
  simp only [globals_stats_best]
  rw [if_neg hf]

theorem globals_best_set (g : Globals) (b : BestObserved) :
    ({ g with best := b } : Globals).best = b := rfl

theorem globals_best_set_cache (g : Globals) (b : BestObserved) :
    ({ g with best := b } : Globals).cache = g.cache := rfl

theorem buildK_nonneg {p : Pack} {bp : Blueprint} {k : Kind} (h : p.Nonneg)
    (hc : p.can_build k bp = true) : (p.buildK bp k).Nonneg := by
  obtain ⟨h1, h2, h3, h4, h5, h6, h7, h8⟩ := h
  cases k <;>
    (simp only [Pack.can_build, Blueprint.costOf, Bool.and_eq_true, decide_eq_true_eq] at hc
     simp only [Pack.buildK, Pack.build_ore, Pack.build_clay, Pack.build_obsidian,
       Pack.build_diamond, Pack.Nonneg]
     omega)

theorem bf_ge_zero (s : State) (bp : Blueprint) (hnn : s.pack.Nonneg) :
    0 ≤ bruteForce s bp := by
  have h1 := bruteGo_ge_diamonds s.remaining_turns s bp hnn
  have h2 := hnn.2.2.2.1
  unfold bruteForce
  omega

theorem branch_master (bp : Blueprint) (hwf : bp.WellFormed) (n : Nat)
    (ih : ∀ (s' : State) (ao' : AllowedOptions) (g' : Globals),
      s'.remaining_turns = n → s'.pack.Nonneg → CacheOK bp g' → MaskOK bp s' ao' g' →
      (solve s' bp ao' g').1 ≤ bruteForce s' bp ∧
      bruteForce s' bp ≤ max (solve s' bp ao' g').1 (solve s' bp ao' g').2.best.value ∧
      g'.best.value ≤ (solve s' bp ao' g').2.best.value ∧
      (solve s' bp ao' g').2.best.value ≤ max g'.best.value (solve s' bp ao' g').1 ∧
      CacheOK bp (solve s' bp ao' g').2)
    (s : State) (k : Kind) (child : State) (cond : Bool) (gin : Globals)
    (hchild : child = s.build bp k)
    (hn : s.remaining_turns = n + 1) (hnn : s.pack.Nonneg) (hck : CacheOK bp gin)
    (hcond : cond = true → s.pack.can_build k bp = true) :
    (branchStep child bp cond gin).1 ≤ bruteForce s bp ∧
    (cond = true → bruteForce child bp ≤ (branchStep child bp cond gin).2.best.value) ∧
    gin.best.value ≤ (branchStep child bp cond gin).2.best.value ∧
    (branchStep child bp cond gin).2.best.value ≤
      max gin.best.value (branchStep child bp cond gin).1 ∧
    CacheOK bp (branchStep child bp cond gin).2 ∧
    (branchStep child bp cond gin).1 ≤ (branchStep child bp cond gin).2.best.value := by
  subst hchild
  by_cases hcnd : cond = true
  · have hcb := hcond hcnd
    have hchild_nn : (s.build bp k).pack.Nonneg := by
      rw [buildK_pack_eq]
      exact produce_nonneg (buildK_nonneg hnn hcb)
    have hrem : (s.build bp k).remaining_turns = n := by
      rw [build_remaining, hn]
      omega
    have hmaskT : MaskOK bp (s.build bp k) AllowedOptions.allTrue gin := by
      intro k' _ hfalse _ _
      rw [allTrue_get] at hfalse
      exact absurd hfalse (by simp)
    obtain ⟨c1, c2, c3, c4, c5⟩ := ih (s.build bp k) AllowedOptions.allTrue gin hrem hchild_nn hck hmaskT
    have h0 : s.remaining_turns ≠ 0 := by omega
    simp only [branchStep, if_pos hcnd]
    simp only [globals_best_set, globals_best_set_cache, update_value]
    have hbb := bf_ge_build s bp k h0 hcb
    refine ⟨by omega, fun _ => by omega, by omega, by omega, ?_, by omega⟩
    exact cacheok_of_le bp c5 rfl (by simp [update_value])
  · simp only [branchStep, if_neg hcnd]
    have hbf0 := bf_ge_zero s bp hnn
    exact ⟨hbf0, fun hco => absurd hco hcnd, le_refl _, le_max_left _ _, hck, hck.1⟩

theorem waitMask_get (s : State) (bp : Blueprint) (k : Kind) :
    (waitMask s bp).get k = !(s.pack.can_build k bp) := by
  cases k <;> rfl

theorem wait_master (bp : Blueprint) (hwf : bp.WellFormed) (n : Nat)
    (ih : ∀ (s' : State) (ao' : AllowedOptions) (g' : Globals),
      s'.remaining_turns = n → s'.pack.Nonneg → CacheOK bp g' → MaskOK bp s' ao' g' →
      (solve s' bp ao' g').1 ≤ bruteForce s' bp ∧
      bruteForce s' bp ≤ max (solve s' bp ao' g').1 (solve s' bp ao' g').2.best.value ∧
      g'.best.value ≤ (solve s' bp ao' g').2.best.value ∧
      (solve s' bp ao' g').2.best.value ≤ max g'.best.value (solve s' bp ao' g').1 ∧
      CacheOK bp (solve s' bp ao' g').2)
    (s : State) (gin : Globals)
    (hn : s.remaining_turns = n + 1) (hnn : s.pack.Nonneg) (hck : CacheOK bp gin)
    (hmw : MaskOK bp s.wait (waitMask s bp) gin) :
    bruteForce s.wait bp ≤ (waitStepFn s bp gin).2.best.value ∧
    (waitStepFn s bp gin).1 ≤ bruteForce s bp ∧
    gin.best.value ≤ (waitStepFn s bp gin).2.best.value ∧
    (waitStepFn s bp gin).2.best.value ≤ max gin.best.value (waitStepFn s bp gin).1 ∧
    CacheOK bp (waitStepFn s bp gin).2 ∧
    (waitStepFn s bp gin).1 ≤ (waitStepFn s bp gin).2.best.value := by
  have h0 : s.remaining_turns ≠ 0 := by omega
  have hrem : s.wait.remaining_turns = n := by
    rw [wait_remaining, hn]
    omega
  have hwnn : s.wait.pack.Nonneg := produce_nonneg hnn
  obtain ⟨c1, c2, c3, c4, c5⟩ := ih s.wait (waitMask s bp) gin hrem hwnn hck hmw
  have hgw := bf_ge_wait s bp h0
  simp only [waitStepFn]
  simp only [globals_best_set, globals_best_set_cache, update_value]
  refine ⟨by omega, by omega, by omega, by omega, ?_, by omega⟩
  exact cacheok_of_le bp c5 rfl (by simp [update_value])

theorem expand_master (bp : Blueprint) (hwf : bp.WellFormed) (n : Nat)
    (ih : ∀ (s' : State) (ao' : AllowedOptions) (g' : Globals),
      s'.remaining_turns = n → s'.pack.Nonneg → CacheOK bp g' → MaskOK bp s' ao' g' →
      (solve s' bp ao' g').1 ≤ bruteForce s' bp ∧
      bruteForce s' bp ≤ max (solve s' bp ao' g').1 (solve s' bp ao' g').2.best.value ∧
      g'.best.value ≤ (solve s' bp ao' g').2.best.value ∧
      (solve s' bp ao' g').2.best.value ≤ max g'.best.value (solve s' bp ao' g').1 ∧
      CacheOK bp (solve s' bp ao' g').2) :
    ∀ (s : State) (ao : AllowedOptions) (g : Globals),
      s.remaining_turns = n + 1 → s.pack.Nonneg → CacheOK bp g → MaskOK bp s ao g →
      (expand s bp ao g).1 ≤ bruteForce s bp ∧
      bruteForce s bp ≤ max (expand s bp ao g).1 (expand s bp ao g).2.best.value ∧
      g.best.value ≤ (expand s bp ao g).2.best.value ∧
      (expand s bp ao g).2.best.value ≤ max g.best.value (expand s bp ao g).1 ∧
      CacheOK bp (expand s bp ao g).2 := by
  intro s ao g hn hnn hck hmk
  have h0 : s.remaining_turns ≠ 0 := by omega
  by_cases hf : s.upper_bound_diamonds < (g.best.value : ℚ)
  · rw [expand_futile s bp ao g hf]
    have hbf0 := bf_ge_zero s bp hnn
    have hub := bruteGo_le_ub s.remaining_turns s bp rfl hwf
    have hlt : bruteForce s bp < g.best.value := by
      have hq : ((bruteForce s bp : Int) : ℚ) < (g.best.value : ℚ) := by
        unfold bruteForce
        exact lt_of_le_of_lt hub hf
      exact_mod_cast hq
    refine ⟨?_, ?_, ?_, ?_, ?_⟩
    · show (-1 : Int) ≤ bruteForce s bp
      omega
    · show bruteForce s bp ≤ max (-1 : Int) g.best.value
      omega
    · show g.best.value ≤ g.best.value
      exact le_refl _
    · show g.best.value ≤ max g.best.value (-1 : Int)
      omega
    · exact hck
  · rw [expand_main_eq s bp ao g hf]
    have hckg1 : CacheOK bp ({ g with stats := g.stats.missed_cache } : Globals) := hck
    obtain ⟨d1, d2, d3, d4, d5, d6⟩ :=
      branch_master bp hwf n ih s Kind.diamond (s.build_diamond bp)
        (s.can_build_diamond bp && ao.diamond) { g with stats := g.stats.missed_cache } rfl
        hn hnn hckg1
        (by
          intro h
          simp only [Bool.and_eq_true, State.can_build_diamond] at h
          exact h.1)
    obtain ⟨o1, o2, o3, o4, o5, o6⟩ :=
      branch_master bp hwf n ih s Kind.ore (s.build_ore bp)
        (s.can_build_ore bp && ao.ore && decide (s.pack.ore_bots < bp.max_ore))
        (branchStep (s.build_diamond bp) bp (s.can_build_diamond bp && ao.diamond)
          { g with stats := g.stats.missed_cache }).2 rfl
        hn hnn d5
        (by
          intro h
          simp only [Bool.and_eq_true, State.can_build_ore] at h
          exact h.1.1)
    obtain ⟨c1, c2, c3, c4, c5, c6⟩ :=
      branch_master bp hwf n ih s Kind.clay (s.build_clay bp)
        (s.can_build_clay bp && ao.clay && decide (s.pack.clay_bots < bp.max_clay))
        (branchStep (s.build_ore bp) bp
          (s.can_build_ore bp && ao.ore && decide (s.pack.ore_bots < bp.max_ore))
          (branchStep (s.build_diamond bp) bp (s.can_build_diamond bp && ao.diamond)
            { g with stats := g.stats.missed_cache }).2).2 rfl
        hn hnn o5
        (by
          intro h
          simp only [Bool.and_eq_true, State.can_build_clay] at h
          exact h.1.1)
    obtain ⟨b1, b2, b3, b4, b5, b6⟩ :=
      branch_master bp hwf n ih s Kind.obsidian (s.build_obsidian bp)
        (s.can_build_obsidian bp && ao.obsidian && decide (s.pack.obsidian_bots < bp.max_obsidian))
        (branchStep (s.build_clay bp) bp
          (s.can_build_clay bp && ao.clay && decide (s.pack.clay_bots < bp.max_clay))
          (branchStep (s.build_ore bp) bp
            (s.can_build_ore bp && ao.ore && decide (s.pack.ore_bots < bp.max_ore))
            (branchStep (s.build_diamond bp) bp (s.can_build_diamond bp && ao.diamond)
              { g with stats := g.stats.missed_cache }).2).2).2 rfl
        hn hnn c5
        (by
          intro h
          simp only [Bool.and_eq_true, State.can_build_obsidian] at h
          exact h.1.1)
    set g1 : Globals := { g with stats := g.stats.missed_cache } with hg1
    set d := branchStep (s.build_diamond bp) bp (s.can_build_diamond bp && ao.diamond) g1 with hd
    set o := branchStep (s.build_ore bp) bp
      (s.can_build_ore bp && ao.ore && decide (s.pack.ore_bots < bp.max_ore)) d.2 with ho
    set c := branchStep (s.build_clay bp) bp
      (s.can_build_clay bp && ao.clay && decide (s.pack.clay_bots < bp.max_clay)) o.2 with hc
    set b := branchStep (s.build_obsidian bp) bp
      (s.can_build_obsidian bp && ao.obsidian && decide (s.pack.obsidian_bots < bp.max_obsidian))
      c.2 with hb
    have hg1best : g1.best.value = g.best.value := rfl
    have hcover : ∀ k, s.pack.can_build k bp = true →
        (k = Kind.diamond ∨ s.pack.robot k < bp.max_resource k) →
        bruteForce (s.build bp k) bp ≤ b.2.best.value := by
      intro k hcan hcapk
      by_cases hak : ao.get k = true
      · cases k with
        | diamond =>
          have hcd : (s.can_build_diamond bp && ao.diamond) = true := by
            simp [State.can_build_diamond, hcan]
            exact hak
          have := d2 hcd
          show bruteForce (s.build_diamond bp) bp ≤ b.2.best.value
          omega
        | ore =>
          have hcap' : s.pack.ore_bots < bp.max_ore := by
            rcases hcapk with hcon | hlt
            · exact absurd hcon (by simp)
            · simpa [Pack.robot, Blueprint.max_ore] using hlt
          have hcd : (s.can_build_ore bp && ao.ore && decide (s.pack.ore_bots < bp.max_ore)) = true := by
            simp [State.can_build_ore, hcan, hcap']
            exact hak
          have := o2 hcd
          show bruteForce (s.build_ore bp) bp ≤ b.2.best.value
          omega
        | clay =>
          have hcap' : s.pack.clay_bots < bp.max_clay := by
            rcases hcapk with hcon | hlt
            · exact absurd hcon (by simp)
            · simpa [Pack.robot, Blueprint.max_clay] using hlt
          have hcd : (s.can_build_clay bp && ao.clay && decide (s.pack.clay_bots < bp.max_clay)) = true := by
            simp [State.can_build_clay, hcan, hcap']
            exact hak
          have := c2 hcd
          show bruteForce (s.build_clay bp) bp ≤ b.2.best.value
          omega
        | obsidian =>
          have hcap' : s.pack.obsidian_bots < bp.max_obsidian := by
            rcases hcapk with hcon | hlt
            · exact absurd hcon (by simp)
            · simpa [Pack.robot, Blueprint.max_obsidian] using hlt
          have hcd : (s.can_build_obsidian bp && ao.obsidian &&
              decide (s.pack.obsidian_bots < bp.max_obsidian)) = true := by
            simp [State.can_build_obsidian, hcan, hcap']
            exact hak
          have := b2 hcd
          exact this
      · have hfa : ao.get k = false := by
          revert hak
          cases hx : ao.get k <;> simp
        have := hmk k h0 hfa hcan hcapk
        omega
    have hmw : MaskOK bp s.wait (waitMask s bp) b.2 := by
      intro k hw0 hmask hcanw hcapw
      have hcan_s : s.pack.can_build k bp = true := by
        rw [waitMask_get] at hmask
        revert hmask
        cases hx : s.pack.can_build k bp <;> simp
      have hrobw : s.wait.pack.robot k = s.pack.robot k := produce_robot s.pack k
      by_cases hcapk : (k = Kind.diamond ∨ s.pack.robot k < bp.max_resource k)
      · have hchain := hcover k hcan_s hcapk
        have hM5 := wait_build_le_build_wait s bp k
        have hbw : bruteForce ((s.build bp k).wait) bp ≤ bruteForce (s.build bp k) bp := by
          apply bf_ge_wait
          rw [build_remaining, hn]
          rw [wait_remaining, hn] at hw0
          omega
        omega
      · rw [hrobw] at hcapw
        exact absurd hcapw hcapk
    obtain ⟨w1, w2, w3, w4, w5, w6⟩ := wait_master bp hwf n ih s b.2 hn hnn b5 hmw
    set w := waitStepFn s bp b.2 with hw
    have hvbf : max (max (max (max d.1 b.1) c.1) o.1) w.1 ≤ bruteForce s bp := by
      omega
    have hbf_final : bruteForce s bp ≤ w.2.best.value := by
      apply bf_le_of_legs s bp _ h0
      · omega
      · intro k hcan
        by_cases hcapk : (k = Kind.diamond ∨ s.pack.robot k < bp.max_resource k)
        · have := hcover k hcan hcapk
          omega
        · have hkd : k ≠ Kind.diamond := by
            intro hcon
            exact hcapk (Or.inl hcon)
          have hcap : bp.max_resource k ≤ s.pack.robot k := by
            omega
          have := cap_build_le_wait s bp k hwf hkd hnn hcan hcap
          omega
    have hvbest : max (max (max (max d.1 b.1) c.1) o.1) w.1 ≤ w.2.best.value := by
      omega
    refine ⟨?_, ?_, ?_, ?_, ?_⟩
    · exact hvbf
    · show bruteForce s bp ≤
        max (max (max (max (max d.1 b.1) c.1) o.1) w.1) w.2.best.value
      omega
    · show g.best.value ≤ w.2.best.value
      omega
    · show w.2.best.value ≤ max g.best.value (max (max (max (max d.1 b.1) c.1) o.1) w.1)
      omega
    · refine ⟨w5.1, ?_⟩
      intro P v r hPe
      have hPe' : (if P = s.pack then some (max (max (max (max d.1 b.1) c.1) o.1) w.1,
          s.remaining_turns) else w.2.cache P) = some (v, r) := hPe
      by_cases hP : P = s.pack
      · rw [if_pos hP] at hPe'
        have hv : v = max (max (max (max d.1 b.1) c.1) o.1) w.1 := by
          injection hPe' with h1
          exact (congrArg Prod.fst h1).symm
        have hr : r = s.remaining_turns := by
          injection hPe' with h1
          exact (congrArg Prod.snd h1).symm
        rw [hP, hr]
        have heta : ({ pack := s.pack, remaining_turns := s.remaining_turns } : State) = s := rfl
        rw [heta]
        rw [hv]
        refine ⟨hnn, hvbf, ?_, ?_⟩
        · show bruteForce s bp ≤ w.2.best.value
          exact hbf_final
        · show max (max (max (max d.1 b.1) c.1) o.1) w.1 ≤ w.2.best.value
          exact hvbest
      · rw [if_neg hP] at hPe'
        exact w5.2 P v r hPe'

theorem solve_master (bp : Blueprint) (hwf : bp.WellFormed) :
    ∀ (n : Nat) (s : State) (ao : AllowedOptions) (g : Globals),
      s.remaining_turns = n → s.pack.Nonneg → CacheOK bp g → MaskOK bp s ao g →
      (solve s bp ao g).1 ≤ bruteForce s bp ∧
      bruteForce s bp ≤ max (solve s bp ao g).1 (solve s bp ao g).2.best.value ∧
      g.best.value ≤ (solve s bp ao g).2.best.value ∧
      (solve s bp ao g).2.best.value ≤ max g.best.value (solve s bp ao g).1 ∧
      CacheOK bp (solve s bp ao g).2 := by
  intro n
  induction n with
  | zero =>
    intro s ao g hn hnn hck hmk
    rw [solve_zero s bp ao g hn]
    have hbfeq : bruteForce s bp = s.pack.diamonds := by
      unfold bruteForce
      rw [hn]
      rfl
    refine ⟨?_, ?_, ?_, ?_, ?_⟩
    · show s.pack.diamonds ≤ bruteForce s bp
      omega
    · show bruteForce s bp ≤ max s.pack.diamonds g.best.value
      omega
    · show g.best.value ≤ g.best.value
      exact le_refl _
    · show g.best.value ≤ max g.best.value s.pack.diamonds
      omega
    · exact hck
  | succ n ih =>
    intro s ao g hn hnn hck hmk
    have h0 : s.remaining_turns ≠ 0 := by omega
    have hckb : CacheOK bp ({ g with stats := g.stats.visit_node } : Globals) := hck
    have hmkb : MaskOK bp s ao ({ g with stats := g.stats.visit_node } : Globals) := hmk
    have hexp := expand_master bp hwf n ih s ao { g with stats := g.stats.visit_node }
      hn hnn hckb hmkb
    cases hc : g.cache s.pack with
    | none =>
      rw [solve_cache_none s bp ao g h0 hc]
      exact hexp
    | some vr =>
      obtain ⟨vc, r⟩ := vr
      obtain ⟨hPn, hvle, hbfle, hvbest⟩ := hck.2 s.pack vc r hc
      rcases Nat.lt_trichotomy s.remaining_turns r with hlt | heq | hgt
      · rw [solve_stale s bp ao g vc r h0 hc hlt]
        have hbf0 := bf_ge_zero s bp hnn
        have hmono : bruteForce s bp ≤
            bruteForce { pack := s.pack, remaining_turns := r } bp := by
          have h1 : bruteForce { pack := s.pack, remaining_turns := s.remaining_turns } bp ≤
              bruteForce { pack := s.pack, remaining_turns := r } bp :=
            bf_turn_mono s.pack bp hnn (le_of_lt hlt)
          exact h1
        refine ⟨?_, ?_, ?_, ?_, ?_⟩
        · show (-1 : Int) ≤ bruteForce s bp
          omega
        · show bruteForce s bp ≤ max (-1 : Int) g.best.value
          omega
        · show g.best.value ≤ g.best.value
          exact le_refl _
        · show g.best.value ≤ max g.best.value (-1 : Int)
          omega
        · exact hck
      · rw [solve_exact s bp ao g vc r h0 hc heq]
        have hbfr : bruteForce s bp = bruteForce { pack := s.pack, remaining_turns := r } bp := by
          rw [← heq]
        refine ⟨?_, ?_, ?_, ?_, ?_⟩
        · show vc ≤ bruteForce s bp
          omega
        · show bruteForce s bp ≤ max vc g.best.value
          omega
        · show g.best.value ≤ g.best.value
          exact le_refl _
        · show g.best.value ≤ max g.best.value vc
          omega
        · exact hck
      · rw [solve_cache_lt s bp ao g vc r h0 hc hgt]
        exact hexp

/-- On fresh globals (empty memo table, best bound reset to zero) with a
well-formed blueprint and a non-negative pack, the search returns exactly
the true optimum computed by exhaustive unpruned search. -/
theorem solve_fresh_eq_bruteForce (bp : Blueprint) (hwf : bp.WellFormed) (s : State)
    (g : Globals) (hc : ∀ P, g.cache P = none) (hb : g.best.value = 0)
    (hnn : s.pack.Nonneg) :
    (solve s bp AllowedOptions.allTrue g).1 = bruteForce s bp := by
  have hck : CacheOK bp g := by
    refine ⟨by omega, ?_⟩
    intro P v r hPe
    rw [hc P] at hPe
    exact absurd hPe (by simp)
  have hmk : MaskOK bp s AllowedOptions.allTrue g := by
    intro k _ hfalse _ _
    rw [allTrue_get] at hfalse
    exact absurd hfalse (by simp)
  obtain ⟨c1, c2, c3, c4, c5⟩ :=
    solve_master bp hwf s.remaining_turns s AllowedOptions.allTrue g rfl hnn hck hmk
  have hv0 : 0 ≤ (solve s bp AllowedOptions.allTrue g).1 :=
    solve_fresh_nonneg s.remaining_turns s bp AllowedOptions.allTrue g rfl hc hb hnn
  omega

/-- C9: fixing a well-formed blueprint and a non-negative initial pack, and
resetting the memo table, statistics and best-observed bound before each
invocation, the value returned by `solve` never decreases when the initial
horizon is increased by one.  (Proved via `solve_fresh_eq_bruteForce`: on
fresh globals the engine computes exactly the exhaustive-search optimum,
which is monotone in the horizon.) -/
theorem c9_horizon_monotone :
    ∀ (bp : Blueprint) (p : Pack) (t : Nat) (g g' : Globals),
      bp.WellFormed → p.Nonneg →
      (∀ P, g.cache P = none) → g.best.value = 0 →
      (∀ P, g'.cache P = none) → g'.best.value = 0 →
      (solve { pack := p, remaining_turns := t } bp AllowedOptions.allTrue g).1 ≤
        (solve { pack := p, remaining_turns := t + 1 } bp AllowedOptions.allTrue g').1 := by
  intro bp p t g g' hwf hnn hc hb hc' hb'
  rw [solve_fresh_eq_bruteForce bp hwf _ g hc hb hnn,
    solve_fresh_eq_bruteForce bp hwf _ g' hc' hb' hnn]
  exact bruteForce_turn_succ p bp t hnn

/-- C9 (witness): the monotonicity instance at the default blueprint, the
standard one-ore-robot initial pack, and horizons 1 and 2, both calls on
fresh globals. -/
theorem c9_witness :
    (solve { pack := { ore_bots := 1 }, remaining_turns := 1 } bpDefault
        AllowedOptions.allTrue freshGlobals).1 ≤
      (solve { pack := { ore_bots := 1 }, remaining_turns := 2 } bpDefault
        AllowedOptions.allTrue freshGlobals).1 :=
  c9_horizon_monotone bpDefault { ore_bots := 1 } 1 freshGlobals freshGlobals
    ⟨fun k j => by cases k <;> cases j <;> decide, fun k => by cases k <;> decide⟩
    (by decide) (fun _ => rfl) rfl (fun _ => rfl) rfl
